import Mathlib

/-! Virtual function templates: registry and dispatch tables.

A shallow embedding of `cpp/virtual_function_templates/main.cpp` (part 1) and
`cpp/virtual_function_templates-part-2/main.cpp` (part 2).

The C++ keeps its slot registry in the compiler: `stateful_type_list` injects
one friend function definition `flag(getter<N>)` per slot and reads them back
with `requires`-expressions.  Here that state is an explicit value that every
operation takes and returns.
-/

/-! ## `type_list` -/

/-- The class template `type_list<Ts...>`: the list of its template arguments. -/
abbrev type_list (α : Type) := List α

namespace type_list

/-- The member `operator+`: `type_list<Ts...> + type_list<Us...>` is `type_list<Ts..., Us...>`. -/
def add {α : Type} (ts us : type_list α) : type_list α := ts ++ us

end type_list

/-! ## `stateful_type_list` -/

namespace stateful_type_list

/-- The compile-time state `stateful_type_list` relies on.

* `flags` holds `(N, T)` when `setter<T, N>` has been instantiated, that is when
  the friend `flag(getter<N>)` has a definition (it returns `type_list<T>`).
* `pushed` holds `((T, N), b)` when the specialisation `try_push<T, N>` has been
  instantiated.  A specialisation is instantiated once, and its `if constexpr`
  is decided at that moment: `b = true` records that the `requires` branch
  (`return try_push<T, N + 1>()`) was kept, `b = false` that the other branch
  (`return setter<T, N>::value`) was kept. -/
structure State (α : Type) where
  flags : List (Nat × α)
  pushed : List ((α × Nat) × Bool)
  deriving DecidableEq

/-- The state of a translation unit before any template has been instantiated. -/
def State.empty {α : Type} : State α := ⟨[], []⟩

/-- The definition of `flag(getter<N>)` among `fs`, if one was injected. -/
def lookupFlag {α : Type} : List (Nat × α) → Nat → Option α
  | [], _ => none
  | (M, T) :: fs, N => if M = N then some T else lookupFlag fs N

/-- The branch recorded for the specialisation `try_push<T, N>` among `ps`, if
it was instantiated. -/
def lookupPushed {α : Type} [DecidableEq α] : List ((α × Nat) × Bool) → α → Nat → Option Bool
  | [], _, _ => none
  | ((U, M), b) :: ps, T, N => if U = T ∧ M = N then some b else lookupPushed ps T N

/-- The type `flag(getter<N>{})` returns, `none` while
`requires { flag(getter<N>{}); }` is false. -/
def flag {α : Type} (st : State α) (N : Nat) : Option α := lookupFlag st.flags N

/-- The recorded branch of `try_push<T, N>`, `none` while it is not instantiated. -/
def instantiated {α : Type} [DecidableEq α] (st : State α) (T : α) (N : Nat) : Option Bool :=
  lookupPushed st.pushed T N

/-- One more than the largest `N` with a definition of `flag(getter<N>)`. -/
def flagBound {α : Type} : List (Nat × α) → Nat
  | [] => 0
  | (M, _) :: fs => max (M + 1) (flagBound fs)

/-- One more than the largest `N` with an instantiated `try_push<T, N>`. -/
def pushedBound {α : Type} : List ((α × Nat) × Bool) → Nat
  | [] => 0
  | ((_, M), _) :: ps => max (M + 1) (pushedBound ps)

/-- The function `try_push<T, N>()` with a bound on the depth of the recursion.

An instantiated specialisation replays the branch it kept.  A fresh one is
instantiated now: when `flag(getter<N>{})` is well-formed it keeps
`return try_push<T, N + 1>()`, otherwise it keeps `return setter<T, N>::value`,
which instantiates `setter<T, N>` and so defines `flag(getter<N>)`. -/
def try_pushAux {α : Type} [DecidableEq α] :
    Nat → α → Nat → State α → Option (Nat × State α)
  | 0, _, _, _ => none
  | fuel + 1, T, N, st =>
    match instantiated st T N with
    | some true => try_pushAux fuel T (N + 1) st
    | some false => some (N, st)
    | none =>
      match flag st N with
      | some _ => try_pushAux fuel T (N + 1) { st with pushed := ((T, N), true) :: st.pushed }
      | none => some (N, { flags := (N, T) :: st.flags, pushed := ((T, N), false) :: st.pushed })

/-- The call `stateful_type_list::try_push<T>()` with the default `N = 0`: the index it
returns and the state it leaves. -/
def try_push {α : Type} [DecidableEq α] (T : α) (st : State α) : Option (Nat × State α) :=
  try_pushAux (max (flagBound st.flags) (pushedBound st.pushed) + 1) T 0 st

/-- The function `get<Unique, N>()` with a bound on the depth of the recursion.  Every use of
`get` names a fresh closure type in its last template argument, so no
specialisation is ever reused and the flags are read anew each time. -/
def getAux {α : Type} : Nat → State α → Nat → Option (type_list α)
  | 0, _, _ => none
  | fuel + 1, st, N =>
    match flag st N with
    | some T => (getAux fuel st (N + 1)).map (fun rest => type_list.add [T] rest)
    | none => some []

/-- The call `stateful_type_list::get<Unique>()` with the default `N = 0`. -/
def get {α : Type} (st : State α) : Option (type_list α) :=
  getAux (flagBound st.flags + 1) st 0

/-- A sequence of uses of `try_push<T>()`, in order: the indices they return and
the state they leave. -/
def registerAll {α : Type} [DecidableEq α] : List α → State α → Option (List Nat × State α)
  | [], st => some ([], st)
  | T :: Ts, st =>
    match try_push T st with
    | none => none
    | some (i, st1) =>
      match registerAll Ts st1 with
      | none => none
      | some (is, st2) => some (i :: is, st2)

/-- The registry described by `sigs`: slot `N` is defined exactly when
`N < sigs.length` and then holds `sigs[N]`, and the instantiated
specialisations of `try_push` are those a scan from `0` up to the slot of each
registered type leaves behind. -/
structure Inv {α : Type} [DecidableEq α] (st : State α) (sigs : List α) : Prop where
  flag_eq : ∀ N, flag st N = sigs[N]?
  kept_else : ∀ T N, instantiated st T N = some false ↔ sigs[N]? = some T
  kept_then : ∀ T N, instantiated st T N = some true ↔ ∃ k, N < k ∧ sigs[k]? = some T

/-- The state in the middle of a scan for a type `T` that has no slot yet:
`try_push<T, M>` has been instantiated for every `M < N0`. -/
structure Scan {α : Type} [DecidableEq α] (st : State α) (sigs : List α) (T : α) (N0 : Nat) :
    Prop where
  fresh : T ∉ sigs
  flag_eq : ∀ N, flag st N = sigs[N]?
  kept_else : ∀ U N, instantiated st U N = some false ↔ sigs[N]? = some U
  kept_then : ∀ U N, instantiated st U N = some true ↔
    (∃ k, N < k ∧ sigs[k]? = some U) ∨ (U = T ∧ N < N0)

end stateful_type_list

/-! ## Call arguments and output streams -/

/-- An argument of a call: the template argument deduced for it (its static
type with its value category) and the object it refers to. -/
structure Arg (Ty V : Type) where
  type : Ty
  value : V

/-- The text held by `std::cout` and by the other `std::ostream` objects of the
program, each named by a number. -/
structure World where
  cout : String
  ostreams : Nat → String

/-- The fold `((stream << args << '\n'), ...)` on a stream that holds `out`.
`fmt` is the text `stream << arg` inserts for one argument; the `operator<<`
overloads are the standard library's. -/
def insert_lines {Ty V : Type} (fmt : Arg Ty V → String) (args : List (Arg Ty V))
    (out : String) : String :=
  args.foldl (fun acc a => acc ++ fmt a ++ "\n") out

/-! ## Part 1: `cpp/virtual_function_templates/main.cpp` -/

namespace Part1

/-- A class deriving from `Printer` that declares a member template
`template <typename... Args> print(Args&&...)`: what a call of that member does,
by template arguments.  `none` means that the call is ill-formed for these
arguments.  The first argument of the member is `this`.  Whatever the member
returns is dropped by the lambda of `run`, so only its effect is kept here.  A
class that declares no `print` is not described: the name then finds the public
`Printer::print`. -/
structure Derived (Ty V W : Type) where
  print : List Ty → Option (Nat → List (Arg Ty V) → W → W)

namespace Printer

/-- The class template `Printer::vtable_func<Args...>`. -/
structure vtable_func (Ty : Type) where
  Args : List Ty
  deriving DecidableEq

/-- The type of a table entry, `void(*)(Printer*, void*)`.  The `void*` points
to a `std::tuple` of references; `none` is undefined behaviour. -/
abbrev Invoker (Ty V W : Type) := Nat → List (Arg Ty V) → W → Option W

/-- The function `vtable_func<Args...>::run<Derived>`.  The tuple pointer is cast to
`std::tuple<Args&&...>*`, which is only right for a tuple of these very types,
and the tuple is applied to a lambda that calls `Derived::print`. -/
def vtable_func.run {Ty V W : Type} [DecidableEq Ty] (self : vtable_func Ty)
    (D : Derived Ty V W) : Option (Invoker Ty V W) :=
  match D.print self.Args with
  | none => none
  | some print =>
    some (fun printer argsTuple w =>
      if argsTuple.map Arg.type = self.Args then some (print printer argsTuple w) else none)

/-- The function `create_vtable<Derived>(type_list<Funcs...>)`: the array
`std::array vtable { Funcs::template run<Derived>... }`.  For an empty pack the
element type of `std::array vtable { }` cannot be deduced, so there is no array;
otherwise there is one when every `run<Derived>` can be instantiated. -/
def create_vtable {Ty V W : Type} [DecidableEq Ty] (D : Derived Ty V W) :
    type_list (vtable_func Ty) → Option (List (Invoker Ty V W))
  | [] => none
  | [f] =>
    match f.run D with
    | some inv => some [inv]
    | none => none
  | f :: g :: fs =>
    match f.run D, create_vtable D (g :: fs) with
    | some inv, some rest => some (inv :: rest)
    | _, _ => none

end Printer

/-- An object of class `Printer`: its address and its member `m_vtable`. -/
structure Printer (Ty V W : Type) where
  this : Nat
  m_vtable : List (Printer.Invoker Ty V W)

namespace Printer

/-- The constructor `Printer(Derived*)`, instantiated when the registry is `st`:
`m_vtable{ create_vtable<Derived>(stateful_type_list::get<Derived>()) }`. -/
def ctor {Ty V W : Type} [DecidableEq Ty] (D : Derived Ty V W) (this : Nat)
    (st : stateful_type_list.State (vtable_func Ty)) : Option (Printer Ty V W) :=
  match stateful_type_list.get st with
  | none => none
  | some funcs =>
    match create_vtable D funcs with
    | none => none
    | some vtable => some { this := this, m_vtable := vtable }

/-- The default template argument `Index` of `print` at a call with arguments
`args`: `stateful_type_list::try_push<vtable_func<Args...>>()`. -/
def print_Index {Ty V : Type} [DecidableEq Ty] (args : List (Arg Ty V))
    (st : stateful_type_list.State (vtable_func Ty)) :
    Option (Nat × stateful_type_list.State (vtable_func Ty)) :=
  stateful_type_list.try_push { Args := args.map Arg.type } st

/-- The body of `Printer::print`: `m_vtable[Index](this, &argsTuple)`.  An index
outside the span is undefined behaviour. -/
def print {Ty V W : Type} (p : Printer Ty V W) (Index : Nat) (args : List (Arg Ty V)) (w : W) :
    Option W :=
  match p.m_vtable[Index]? with
  | none => none
  | some invoker => invoker p.this args w

end Printer

/-- The class `PrinterImpl`: `print` folds `std::cout << args << '\n'` over its
arguments. -/
def PrinterImpl {Ty V : Type} (fmt : Arg Ty V → String) : Derived Ty V World where
  print := fun _ => some (fun _ args w => { w with cout := insert_lines fmt args w.cout })

end Part1

/-! ## Part 2: `cpp/virtual_function_templates-part-2/main.cpp` -/

namespace Part2

/-- A pointer to member function `R (Derived::*)(Args...)`, where `A` is what a
`std::tuple<Args&&...>` unpacks to.  The first argument of `call` is `this`. -/
inductive MemFn (A W R : Type) where
  | returns_void (call : Nat → A → W → W)
  | returns (call : Nat → A → W → R × W)

/-- A class deriving from `Printer` that declares the three member templates:
what `&Derived::template print<Ts...>` and its two siblings name, by template
arguments.  `none` means that the expression is ill-formed for these arguments.
A class that leaves one of the three names undeclared is not described: the
name then finds the public member template of `Printer` itself. -/
structure Derived (Ty V W R : Type) where
  print : List Ty → Option (MemFn (List (Arg Ty V)) W R)
  print_to_stream : List Ty → Option (MemFn (Nat × List (Arg Ty V)) W R)
  print_to_string : List Ty → Option (MemFn (List (Arg Ty V)) W R)

namespace Printer

/-- The enumeration `enum class Function`. -/
inductive Function where
  | Print
  | PrintToStream
  | PrintToString
  deriving DecidableEq, Repr

/-- The class template `Printer::vtable_func<F, Ts...>`. -/
structure vtable_func (Ty : Type) where
  F : Function
  Ts : List Ty
  deriving DecidableEq

/-- An element of the tuple of references `std::forward_as_tuple` builds:
the `std::ostream&` in front of a `print_to_stream` call, or a forwarded
argument. -/
inductive TupleElem (Ty V : Type) where
  | ostream (stream : Nat)
  | forwarded (arg : Arg Ty V)

/-- The third argument of an invoker, `void* ret`: `none` is `nullptr`,
`some o` points to a `std::optional<R>` that holds `o`. -/
abbrev RetSlot (R : Type) := Option (Option R)

/-- The type of a table entry, `void(*)(Printer*, void*, void*)`: what the call
leaves in the result slot and in the world; `none` is undefined behaviour. -/
abbrev Invoker (Ty V W R : Type) :=
  Nat → List (TupleElem Ty V) → RetSlot R → W → Option (RetSlot R × W)

/-- The forwarded arguments of a tuple that holds nothing else. -/
def forwarded_args {Ty V : Type} : List (TupleElem Ty V) → Option (List (Arg Ty V))
  | [] => some []
  | TupleElem.forwarded a :: es =>
    match forwarded_args es with
    | some args => some (a :: args)
    | none => none
  | TupleElem.ostream _ :: _ => none

/-- The cast `*static_cast<std::tuple<Ts&&...>*>(argsTuplePtr)`: defined for a
tuple of exactly these element types. -/
def as_tuple {Ty V : Type} [DecidableEq Ty] (Ts : List Ty) (argsTuple : List (TupleElem Ty V)) :
    Option (List (Arg Ty V)) :=
  match forwarded_args argsTuple with
  | some args => if args.map Arg.type = Ts then some args else none
  | none => none

/-- The cast `*static_cast<std::tuple<std::ostream&, Ts&&...>*>(argsTuplePtr)`. -/
def as_tuple_with_ostream {Ty V : Type} [DecidableEq Ty] (Ts : List Ty) :
    List (TupleElem Ty V) → Option (Nat × List (Arg Ty V))
  | TupleElem.ostream stream :: es =>
    match as_tuple Ts es with
    | some args => some (stream, args)
    | none => none
  | _ => none

/-- The function `vtable_func::run_impl`.  `cast` is the cast of `argsTuplePtr` to the tuple
type that belongs to the parameters of `func`.  For `R = void` the tuple is
applied and `ret` is not used; otherwise the result is assigned through `ret`,
which is undefined for a null pointer. -/
def vtable_func.run_impl {Ty V W R A : Type} (cast : List (TupleElem Ty V) → Option A)
    (func : MemFn A W R) : Invoker Ty V W R :=
  fun printer argsTuplePtr ret w =>
    match cast argsTuplePtr with
    | none => none
    | some argsTuple =>
      match func with
      | MemFn.returns_void call => some (ret, call printer argsTuple w)
      | MemFn.returns call =>
        match ret with
        | none => none
        | some _ => some (some (some (call printer argsTuple w).1), (call printer argsTuple w).2)

/-- The function `vtable_func<F, Ts...>::run<Derived>`: `run_impl` on the member of `Derived`
that `F` names, instantiated for `Ts...`. -/
def vtable_func.run {Ty V W R : Type} [DecidableEq Ty] (self : vtable_func Ty)
    (D : Derived Ty V W R) : Option (Invoker Ty V W R) :=
  match self.F with
  | Function.Print =>
    match D.print self.Ts with
    | some func => some (vtable_func.run_impl (as_tuple self.Ts) func)
    | none => none
  | Function.PrintToStream =>
    match D.print_to_stream self.Ts with
    | some func => some (vtable_func.run_impl (as_tuple_with_ostream self.Ts) func)
    | none => none
  | Function.PrintToString =>
    match D.print_to_string self.Ts with
    | some func => some (vtable_func.run_impl (as_tuple self.Ts) func)
    | none => none

/-- The function `create_vtable<Derived>(type_list<Funcs...>)`: the array
`std::array vtable { Funcs::template run<Derived>... }`.  For an empty pack the
element type of `std::array vtable { }` cannot be deduced, so there is no array;
otherwise there is one when every `run<Derived>` can be instantiated. -/
def create_vtable {Ty V W R : Type} [DecidableEq Ty] (D : Derived Ty V W R) :
    type_list (vtable_func Ty) → Option (List (Invoker Ty V W R))
  | [] => none
  | [f] =>
    match f.run D with
    | some inv => some [inv]
    | none => none
  | f :: g :: fs =>
    match f.run D, create_vtable D (g :: fs) with
    | some inv, some rest => some (inv :: rest)
    | _, _ => none

end Printer

/-- An object of class `Printer`: its address and its member `m_vtable`. -/
structure Printer (Ty V W R : Type) where
  this : Nat
  m_vtable : List (Printer.Invoker Ty V W R)

namespace Printer

/-- The constructor `Printer(Derived*)`, instantiated when the registry is `st`:
`m_vtable{ create_vtable<Derived>(stateful_type_list::get<Derived>()) }`. -/
def ctor {Ty V W R : Type} [DecidableEq Ty] (D : Derived Ty V W R) (this : Nat)
    (st : stateful_type_list.State (vtable_func Ty)) : Option (Printer Ty V W R) :=
  match stateful_type_list.get st with
  | none => none
  | some funcs =>
    match create_vtable D funcs with
    | none => none
    | some vtable => some { this := this, m_vtable := vtable }

/-- The type a call `print(args...)` registers: `vtable_func<Function::Print, Args...>`. -/
def print_func {Ty V : Type} (args : List (Arg Ty V)) : vtable_func Ty :=
  { F := Function.Print, Ts := args.map Arg.type }

/-- The type a call `print_to_stream(stream, args...)` registers:
`vtable_func<Function::PrintToStream, Args...>`, with `Args...` deduced from the
arguments after `stream`. -/
def print_to_stream_func {Ty V : Type} (_stream : Nat) (args : List (Arg Ty V)) :
    vtable_func Ty :=
  { F := Function.PrintToStream, Ts := args.map Arg.type }

/-- The type a call `print_to_string(args...)` registers:
`vtable_func<Function::PrintToString, Args...>`. -/
def print_to_string_func {Ty V : Type} (args : List (Arg Ty V)) : vtable_func Ty :=
  { F := Function.PrintToString, Ts := args.map Arg.type }

/-- The default template argument `Index` of `print` at a call with arguments `args`. -/
def print_Index {Ty V : Type} [DecidableEq Ty] (args : List (Arg Ty V))
    (st : stateful_type_list.State (vtable_func Ty)) :
    Option (Nat × stateful_type_list.State (vtable_func Ty)) :=
  stateful_type_list.try_push (print_func args) st

/-- The default template argument `Index` of `print_to_stream` at a call with
arguments `stream, args...`. -/
def print_to_stream_Index {Ty V : Type} [DecidableEq Ty] (stream : Nat) (args : List (Arg Ty V))
    (st : stateful_type_list.State (vtable_func Ty)) :
    Option (Nat × stateful_type_list.State (vtable_func Ty)) :=
  stateful_type_list.try_push (print_to_stream_func stream args) st

/-- The default template argument `Index` of `print_to_string` at a call with
arguments `args`. -/
def print_to_string_Index {Ty V : Type} [DecidableEq Ty] (args : List (Arg Ty V))
    (st : stateful_type_list.State (vtable_func Ty)) :
    Option (Nat × stateful_type_list.State (vtable_func Ty)) :=
  stateful_type_list.try_push (print_to_string_func args) st

/-- The body of `Printer::print`: `m_vtable[Index](this, &argsTuple, nullptr)`.
An index outside the span is undefined behaviour. -/
def print {Ty V W R : Type} (p : Printer Ty V W R) (Index : Nat) (args : List (Arg Ty V))
    (w : W) : Option W :=
  match p.m_vtable[Index]? with
  | none => none
  | some invoker =>
    match invoker p.this (args.map TupleElem.forwarded) none w with
    | none => none
    | some (_, w1) => some w1

/-- The body of `Printer::print_to_stream`: the tuple starts with `stream`. -/
def print_to_stream {Ty V W R : Type} (p : Printer Ty V W R) (Index : Nat) (stream : Nat)
    (args : List (Arg Ty V)) (w : W) : Option W :=
  match p.m_vtable[Index]? with
  | none => none
  | some invoker =>
    match invoker p.this (TupleElem.ostream stream :: args.map TupleElem.forwarded) none w with
    | none => none
    | some (_, w1) => some w1

/-- The body of `Printer::print_to_string`: the invoker is given the address of
an empty `std::optional<std::string> ret`, and `std::move(*ret)` is returned,
which is undefined while `ret` is empty. -/
def print_to_string {Ty V W : Type} (p : Printer Ty V W String) (Index : Nat)
    (args : List (Arg Ty V)) (w : W) : Option (String × W) :=
  match p.m_vtable[Index]? with
  | none => none
  | some invoker =>
    match invoker p.this (args.map TupleElem.forwarded) (some none) w with
    | some (some (some str), w1) => some (str, w1)
    | _ => none

end Printer

/-- The class `PrinterImpl`. -/
def PrinterImpl {Ty V : Type} (fmt : Arg Ty V → String) : Derived Ty V World String where
  print := fun _ =>
    some (MemFn.returns_void fun _ args w => { w with cout := insert_lines fmt args w.cout })
  print_to_stream := fun _ =>
    some (MemFn.returns_void fun _ sa w =>
      { w with ostreams := fun s =>
          if s = sa.1 then insert_lines fmt sa.2 (w.ostreams s) else w.ostreams s })
  print_to_string := fun _ =>
    some (MemFn.returns fun _ args w => (insert_lines fmt args "", w))

end Part2

/-! ## The arguments of `main` -/

/-- The argument types `main` uses. -/
inductive CppType where
  | int
  | double
  | string
  | const (T : CppType)
  | lvalue_ref (T : CppType)
  deriving DecidableEq, Repr

/-- The three objects `main` passes: the literal `5`, `double d = 2.5` and
`const std::string s = "Hello, world!"`. -/
inductive MainValue where
  | five
  | d
  | s
  deriving DecidableEq, Repr

/-- The text `operator<<` inserts for each of the objects of `main`. -/
def main_fmt (a : Arg CppType MainValue) : String :=
  match a.value with
  | MainValue.five => "5"
  | MainValue.d => "2.5"
  | MainValue.s => "Hello, world!"

/-- The arguments of the call in `main`, `(5, d, s)`, with the template
arguments deduced for them: `int`, `double&`, `const std::string&`. -/
def main_args : List (Arg CppType MainValue) :=
  [ { type := CppType.int, value := MainValue.five },
    { type := CppType.lvalue_ref CppType.double, value := MainValue.d },
    { type := CppType.lvalue_ref (CppType.const CppType.string), value := MainValue.s } ]

/-- A world in which nothing has been written yet. -/
def World.blank : World := { cout := "", ostreams := fun _ => "" }

/-! ## The translation unit of part 1 -/

namespace Part1

/-- The type the call `p->print(5, d, s)` of `main` registers. -/
def main_func : Printer.vtable_func CppType := { Args := main_args.map Arg.type }

/-- The registry once the one call of `main` is registered. -/
def main_registry : stateful_type_list.State (Printer.vtable_func CppType) :=
  { flags := [(0, main_func)], pushed := [((main_func, 0), false)] }

/-- The object `make_printer()` returns, a `PrinterImpl` at address `0` whose
constructor was instantiated with the registry of `main`. -/
def main_printer : Printer CppType MainValue World :=
  (Printer.ctor (PrinterImpl main_fmt) 0 main_registry).getD { this := 0, m_vtable := [] }

end Part1

/-! ## The translation unit of part 2 -/

namespace Part2

/-- The type the call `p->print_to_string(5, d, s)` of `main` registers. -/
def main_func : Printer.vtable_func CppType := Printer.print_to_string_func main_args

/-- The registry once the one call of `main` is registered. -/
def main_registry : stateful_type_list.State (Printer.vtable_func CppType) :=
  { flags := [(0, main_func)], pushed := [((main_func, 0), false)] }

/-- The object `make_printer()` returns, a `PrinterImpl` at address `0` whose
constructor was instantiated with the registry of `main`. -/
def main_printer : Printer CppType MainValue World String :=
  (Printer.ctor (PrinterImpl main_fmt) 0 main_registry).getD { this := 0, m_vtable := [] }

/-- The registrations of a translation unit that calls `print(5, d, s)`,
`print_to_stream(stream, 5, d, s)` on the stream numbered `1`, and
`print_to_string(5, d, s)`, in this order. -/
def three_calls : List (Printer.vtable_func CppType) :=
  [Printer.print_func main_args, Printer.print_to_stream_func 1 main_args,
    Printer.print_to_string_func main_args]

/-- The registry once `three_calls` are registered. -/
def three_calls_registry : stateful_type_list.State (Printer.vtable_func CppType) :=
  ((stateful_type_list.registerAll three_calls stateful_type_list.State.empty).getD
    ([], stateful_type_list.State.empty)).2

/-- A `PrinterImpl` at address `0` whose constructor was instantiated with the
registry of `three_calls`. -/
def three_calls_printer : Printer CppType MainValue World String :=
  (Printer.ctor (PrinterImpl main_fmt) 0 three_calls_registry).getD { this := 0, m_vtable := [] }

end Part2

/-! ## Classes whose members have other return types -/

/-- A member `std::string print(Args&&...)`: it writes to `std::cout` as
`PrinterImpl::print` does and returns the text it wrote. -/
def print_returning_text {Ty V : Type} (fmt : Arg Ty V → String) (_this : Nat)
    (args : List (Arg Ty V)) (w : World) : String × World :=
  (insert_lines fmt args "", { w with cout := insert_lines fmt args w.cout })

namespace Part1

/-- A class like `PrinterImpl` whose `print` is `print_returning_text`, as part 1
sees it: the lambda of `run` calls it and drops what it returns. -/
def PrinterReturningText {Ty V : Type} (fmt : Arg Ty V → String) : Derived Ty V World where
  print := fun _ => some (fun this args w => (print_returning_text fmt this args w).2)

end Part1

namespace Part2

/-- A class like `PrinterImpl` whose `print` is `print_returning_text`, as part 2
sees it: `&Derived::template print<Ts...>` is a pointer to a member that returns
`std::string`. -/
def PrinterReturningText {Ty V : Type} (fmt : Arg Ty V → String) : Derived Ty V World String where
  print := fun _ => some (MemFn.returns (print_returning_text fmt))
  print_to_stream := (PrinterImpl fmt).print_to_stream
  print_to_string := (PrinterImpl fmt).print_to_string

/-- A class like `PrinterImpl` whose `print_to_string` returns `void`: it
writes the lines to `std::cout`. -/
def PrinterVoidToString {Ty V : Type} (fmt : Arg Ty V → String) : Derived Ty V World String where
  print := (PrinterImpl fmt).print
  print_to_stream := (PrinterImpl fmt).print_to_stream
  print_to_string := fun _ =>
    some (MemFn.returns_void fun _ args w => { w with cout := insert_lines fmt args w.cout })

/-- An object of `PrinterVoidToString` at address `0` whose constructor was
instantiated with the registry of `main`. -/
def void_to_string_printer : Printer CppType MainValue World String :=
  (Printer.ctor (PrinterVoidToString main_fmt) 0 main_registry).getD
    { this := 0, m_vtable := [] }

end Part2

/-! ## The text of an argument list, as the specification words it -/

/-- The concatenation, in argument order, of the rendering of each argument
followed by one newline; the empty string for no argument.  This follows the
words of the specification and is compared with `insert_lines`, which follows
the fold in the source. -/
def rendered_lines {Ty V : Type} (fmt : Arg Ty V → String) : List (Arg Ty V) → String
  | [] => ""
  | a :: rest => fmt a ++ "\n" ++ rendered_lines fmt rest

/-! ## A program that uses the `Printer` of part 2 -/

namespace Part2

/-- The state of a program built from one translation unit.

* `registry` is the compile-time state of `stateful_type_list`.
* `ctors` holds `(d, st)` when the constructor template `Printer(Derived*)` has
  been instantiated for the class numbered `d`, with `st` the registry at that
  point.  A specialisation is instantiated once, so the `type_list` its
  `create_vtable<Derived>` is called with, and with it the static array
  `vtable`, is fixed from then on.
* `objects` are the `Printer` objects constructed so far, and `world` is what
  their implementations act on. -/
structure Program (Ty V W : Type) where
  registry : stateful_type_list.State (Printer.vtable_func Ty)
  ctors : List (Nat × stateful_type_list.State (Printer.vtable_func Ty))
  objects : List (Printer Ty V W String)
  world : W

/-- What a program does next: it registers a call site, constructs an object of
the class numbered `derived` at address `this`, or calls one of the three
operations on the object numbered `object`. -/
inductive Step (Ty V : Type) where
  | register (f : Printer.vtable_func Ty)
  | construct (derived this : Nat)
  | print (object Index : Nat) (args : List (Arg Ty V))
  | print_to_stream (object Index stream : Nat) (args : List (Arg Ty V))
  | print_to_string (object Index : Nat) (args : List (Arg Ty V))

/-- The registry the constructor of the class numbered `d` was instantiated
with, `none` while it is not instantiated. -/
def instantiated_ctor {Ty : Type} :
    List (Nat × stateful_type_list.State (Printer.vtable_func Ty)) → Nat →
      Option (stateful_type_list.State (Printer.vtable_func Ty))
  | [], _ => none
  | (e, st) :: cs, d => if e = d then some st else instantiated_ctor cs d

/-- One step of a program whose classes are `classes`.  A registration goes
through `try_push`.  A construction uses the instantiated constructor of its
class, instantiating it now, with the current registry, when this is its first
use.  The three operations dispatch through the table of the object and act on
the world; the object itself has no member they assign to (`m_vtable` is
`const`). -/
def Program.exec {Ty V W : Type} [DecidableEq Ty] (classes : Nat → Derived Ty V W String) :
    Step Ty V → Program Ty V W → Option (Program Ty V W)
  | Step.register f, prog =>
    match stateful_type_list.try_push f prog.registry with
    | none => none
    | some (_, st) =>
      some { registry := st, ctors := prog.ctors, objects := prog.objects, world := prog.world }
  | Step.construct d this, prog =>
    match instantiated_ctor prog.ctors d with
    | some st =>
      match Printer.ctor (classes d) this st with
      | none => none
      | some p =>
        some { registry := prog.registry, ctors := prog.ctors, objects := prog.objects ++ [p],
               world := prog.world }
    | none =>
      match Printer.ctor (classes d) this prog.registry with
      | none => none
      | some p =>
        some { registry := prog.registry, ctors := (d, prog.registry) :: prog.ctors,
               objects := prog.objects ++ [p], world := prog.world }
  | Step.print k Index args, prog =>
    match prog.objects[k]? with
    | none => none
    | some p =>
      match Printer.print p Index args prog.world with
      | none => none
      | some w1 =>
        some { registry := prog.registry, ctors := prog.ctors, objects := prog.objects,
               world := w1 }
  | Step.print_to_stream k Index stream args, prog =>
    match prog.objects[k]? with
    | none => none
    | some p =>
      match Printer.print_to_stream p Index stream args prog.world with
      | none => none
      | some w1 =>
        some { registry := prog.registry, ctors := prog.ctors, objects := prog.objects,
               world := w1 }
  | Step.print_to_string k Index args, prog =>
    match prog.objects[k]? with
    | none => none
    | some p =>
      match Printer.print_to_string p Index args prog.world with
      | none => none
      | some (_, w1) =>
        some { registry := prog.registry, ctors := prog.ctors, objects := prog.objects,
               world := w1 }

/-- A sequence of steps, in order. -/
def Program.run {Ty V W : Type} [DecidableEq Ty] (classes : Nat → Derived Ty V W String) :
    List (Step Ty V) → Program Ty V W → Option (Program Ty V W)
  | [], prog => some prog
  | step :: steps, prog =>
    match Program.exec classes step prog with
    | none => none
    | some prog1 => Program.run classes steps prog1

/-- The program of `main` before its first object: the call of `main` is
registered and nothing is constructed. -/
def main_program : Program CppType MainValue World :=
  { registry := main_registry, ctors := [], objects := [], world := World.blank }

/-- Steps between two constructions: a call `print(5, d, s)` is registered, and
`print_to_string(5, d, s)` is called on the first object. -/
def steps_between : List (Step CppType MainValue) :=
  [Step.register (Printer.print_func main_args), Step.print_to_string 0 0 main_args]

/-- The program after a `PrinterImpl` is constructed at address `10`, the
`steps_between` are taken, and a second `PrinterImpl` is constructed at `20`. -/
def main_program_after : Program CppType MainValue World :=
  (Program.run (fun _ => PrinterImpl main_fmt)
    (Step.construct 0 10 :: (steps_between ++ [Step.construct 0 20])) main_program).getD
    main_program

end Part2

/-! ## Properties of the registry -/

namespace stateful_type_list

theorem lookupFlag_lt_flagBound {α : Type} {fs : List (Nat × α)} {N : Nat} {T : α}
    (h : lookupFlag fs N = some T) : N < flagBound fs := by
  induction fs with
  | nil => simp [lookupFlag] at h
  | cons e fs ih =>
    obtain ⟨M, U⟩ := e
    simp only [lookupFlag] at h
    simp only [flagBound]
    by_cases hM : M = N
    · subst hM; omega
    · rw [if_neg hM] at h
      have := ih h
      omega

theorem getElem?_snoc {α : Type} (sigs : List α) (T : α) (M : Nat) :
    (sigs ++ [T])[M]? =
      if M < sigs.length then sigs[M]? else if M = sigs.length then some T else none := by
  by_cases h1 : M < sigs.length
  · rw [if_pos h1, List.getElem?_append_left h1]
  · rw [if_neg h1, List.getElem?_append_right (by omega)]
    by_cases h2 : M = sigs.length
    · rw [if_pos h2, h2]; simp
    · rw [if_neg h2]
      have : M - sigs.length ≠ 0 := by omega
      obtain ⟨j, hj⟩ := Nat.exists_eq_succ_of_ne_zero this
      rw [hj]; simp

theorem getElem?_ne_of_not_mem {α : Type} {sigs : List α} {T : α} (hT : T ∉ sigs) (k : Nat) :
    sigs[k]? ≠ some T := by
  intro hk
  exact hT (List.getElem?_mem hk)

variable {α : Type} [DecidableEq α]

theorem lookupPushed_lt_pushedBound {ps : List ((α × Nat) × Bool)} {T : α} {N : Nat} {b : Bool}
    (h : lookupPushed ps T N = some b) : N < pushedBound ps := by
  induction ps with
  | nil => simp [lookupPushed] at h
  | cons e ps ih =>
    obtain ⟨⟨U, M⟩, c⟩ := e
    simp only [lookupPushed] at h
    simp only [pushedBound]
    by_cases hM : U = T ∧ M = N
    · obtain ⟨_, rfl⟩ := hM; omega
    · rw [if_neg hM] at h
      have := ih h
      omega

/-- The recursion of `try_push` ends: past the largest slot that is defined or
was scanned before, it takes the branch that returns. -/
theorem try_pushAux_returns (fuel : Nat) (T : α) :
    ∀ (N : Nat) (st : State α),
      max (flagBound st.flags) (pushedBound st.pushed) ≤ fuel + N →
      ∃ r, try_pushAux (fuel + 1) T N st = some r := by
  induction fuel with
  | zero =>
    intro N st h
    unfold try_pushAux
    cases hp : instantiated st T N with
    | some b =>
      have := lookupPushed_lt_pushedBound hp
      omega
    | none =>
      cases hf : flag st N with
      | some U =>
        have := lookupFlag_lt_flagBound hf
        omega
      | none => exact ⟨_, rfl⟩
  | succ fuel ih =>
    intro N st h
    unfold try_pushAux
    cases hp : instantiated st T N with
    | some b =>
      cases b with
      | true => exact ih (N + 1) st (by omega)
      | false => exact ⟨_, rfl⟩
    | none =>
      cases hf : flag st N with
      | some U =>
        have hN := lookupFlag_lt_flagBound hf
        refine ih (N + 1) _ ?_
        simp only [pushedBound]
        omega
      | none => exact ⟨_, rfl⟩

/-- Totality of `try_push`: from every state it returns an index. -/
theorem try_push_returns (T : α) (st : State α) : ∃ r, try_push T st = some r :=
  try_pushAux_returns _ T 0 st (by omega)

/-- Totality of a sequence of registrations. -/
theorem registerAll_returns (Ts : List α) : ∀ st : State α, ∃ r, registerAll Ts st = some r := by
  induction Ts with
  | nil => intro st; exact ⟨_, rfl⟩
  | cons T Ts ih =>
    intro st
    obtain ⟨⟨i, st1⟩, h1⟩ := try_push_returns T st
    obtain ⟨⟨is, st2⟩, h2⟩ := ih st1
    exact ⟨(i :: is, st2), by simp [registerAll, h1, h2]⟩

theorem Inv.empty : Inv (State.empty : State α) [] where
  flag_eq := by intro N; simp [flag, State.empty, lookupFlag]
  kept_else := by intro T N; simp [instantiated, State.empty, lookupPushed]
  kept_then := by intro T N; simp [instantiated, State.empty, lookupPushed]

theorem Inv.toScan {st : State α} {sigs : List α} {T : α} (h : Inv st sigs) (hT : T ∉ sigs) :
    Scan st sigs T 0 where
  fresh := hT
  flag_eq := h.flag_eq
  kept_else := h.kept_else
  kept_then := by intro U N; simp [h.kept_then]

/-- A registered type is found again: the scan replays the instantiated
specialisations up to its slot and changes nothing. -/
theorem try_pushAux_hit {st : State α} {sigs : List α} (h : Inv st sigs) {T : α} {k : Nat}
    (hk : sigs[k]? = some T) (fuel : Nat) :
    ∀ N, N ≤ k → k < N + fuel → try_pushAux fuel T N st = some (k, st) := by
  induction fuel with
  | zero => intro N h1 h2; omega
  | succ fuel ih =>
    intro N h1 h2
    unfold try_pushAux
    by_cases hN : N = k
    · subst hN
      rw [(h.kept_else T N).2 hk]
    · have : instantiated st T N = some true := (h.kept_then T N).2 ⟨k, by omega, hk⟩
      rw [this]
      exact ih (N + 1) (by omega) (by omega)

theorem Inv.length_le_flagBound {st : State α} {sigs : List α} (h : Inv st sigs) :
    sigs.length ≤ flagBound st.flags := by
  cases hn : sigs.length with
  | zero => omega
  | succ n =>
    have hlt : n < sigs.length := by omega
    have : flag st n = some sigs[n] := by rw [h.flag_eq, List.getElem?_eq_getElem hlt]
    have := lookupFlag_lt_flagBound this
    omega

/-- Registering a type that has a slot returns that slot and leaves the state as it was. -/
theorem try_push_hit {st : State α} {sigs : List α} (h : Inv st sigs) {T : α} {k : Nat}
    (hk : sigs[k]? = some T) : try_push T st = some (k, st) := by
  have hlt : k < sigs.length := by
    by_contra hc
    rw [List.getElem?_eq_none (by omega)] at hk
    cases hk
  have := h.length_le_flagBound
  exact try_pushAux_hit h hk _ 0 (by omega) (by omega)

/-- A scan for an unregistered type that has reached slot `N` runs on to the
first undefined slot, `sigs.length`, defines it and returns it. -/
theorem try_pushAux_miss {sigs : List α} {T : α} (fuel : Nat) :
    ∀ (N : Nat) (st : State α), Scan st sigs T N → N ≤ sigs.length → sigs.length < N + fuel →
      ∃ st1, try_pushAux fuel T N st = some (sigs.length, st1) ∧ Inv st1 (sigs ++ [T]) := by
  induction fuel with
  | zero => intro N st _ h1 h2; omega
  | succ fuel ih =>
    intro N st hs h1 h2
    unfold try_pushAux
    have hnone : instantiated st T N = none := by
      cases hp : instantiated st T N with
      | none => rfl
      | some b =>
        exfalso
        cases b with
        | false => exact getElem?_ne_of_not_mem hs.fresh N ((hs.kept_else T N).1 hp)
        | true =>
          rcases (hs.kept_then T N).1 hp with ⟨k, _, hk⟩ | ⟨_, hlt⟩
          · exact getElem?_ne_of_not_mem hs.fresh k hk
          · omega
    rw [hnone]
    by_cases hN : N < sigs.length
    · have hf : flag st N = some sigs[N] := by rw [hs.flag_eq, List.getElem?_eq_getElem hN]
      rw [hf]
      refine ih (N + 1) _ ?_ (by omega) (by omega)
      refine ⟨hs.fresh, hs.flag_eq, ?_, ?_⟩
      · intro U M
        have := hs.kept_else U M
        simp only [instantiated, lookupPushed] at this ⊢
        by_cases hc : T = U ∧ N = M
        · rw [if_pos hc]
          obtain ⟨rfl, rfl⟩ := hc
          simp [getElem?_ne_of_not_mem hs.fresh]
        · rw [if_neg hc]; exact this
      · intro U M
        have := hs.kept_then U M
        simp only [instantiated, lookupPushed] at this ⊢
        by_cases hc : T = U ∧ N = M
        · rw [if_pos hc]
          obtain ⟨rfl, rfl⟩ := hc
          simp
        · rw [if_neg hc, this]
          constructor
          · rintro (h | ⟨rfl, hlt⟩)
            · exact Or.inl h
            · exact Or.inr ⟨rfl, by omega⟩
          · rintro (h | ⟨rfl, hlt⟩)
            · exact Or.inl h
            · refine Or.inr ⟨rfl, ?_⟩
              have : N ≠ M := fun e => hc ⟨rfl, e⟩
              omega
    · have hNeq : N = sigs.length := by omega
      subst hNeq
      have hf : flag st sigs.length = none := by rw [hs.flag_eq]; simp
      rw [hf]
      refine ⟨_, rfl, ?_, ?_, ?_⟩
      · intro M
        rw [getElem?_snoc]
        simp only [flag, lookupFlag]
        by_cases hM : sigs.length = M
        · simp [hM]
        · rw [if_neg hM]
          have := hs.flag_eq M
          simp only [flag] at this
          rw [this]
          by_cases hlt : M < sigs.length
          · simp [hlt]
          · rw [if_neg hlt, if_neg (Ne.symm hM)]; simp; omega
      · intro U M
        rw [getElem?_snoc]
        have := hs.kept_else U M
        simp only [instantiated, lookupPushed] at this ⊢
        by_cases hc : T = U ∧ sigs.length = M
        · obtain ⟨rfl, rfl⟩ := hc
          simp
        · rw [if_neg hc, this]
          by_cases hlt : M < sigs.length
          · simp [hlt]
          · rw [if_neg hlt]
            have : sigs[M]? = none := by simp; omega
            rw [this]
            by_cases hM : M = sigs.length
            · rw [if_pos hM]
              have : T ≠ U := fun e => hc ⟨e, hM.symm⟩
              simp [this]
            · simp [hM]
      · intro U M
        have := hs.kept_then U M
        simp only [instantiated, lookupPushed] at this ⊢
        by_cases hc : T = U ∧ sigs.length = M
        · obtain ⟨rfl, rfl⟩ := hc
          simp only [and_self, if_true]
          constructor
          · intro h; cases h
          · rintro ⟨k, hk, hk2⟩
            rw [getElem?_snoc] at hk2
            rw [if_neg (by omega), if_neg (by omega)] at hk2
            cases hk2
        · rw [if_neg hc, this]
          constructor
          · rintro (⟨k, hk, hk2⟩ | ⟨rfl, hlt⟩)
            · refine ⟨k, hk, ?_⟩
              rw [getElem?_snoc]
              have : k < sigs.length := by
                by_contra hcon
                rw [List.getElem?_eq_none (by omega)] at hk2
                cases hk2
              rw [if_pos this]; exact hk2
            · refine ⟨sigs.length, hlt, ?_⟩
              rw [getElem?_snoc]; simp
          · rintro ⟨k, hk, hk2⟩
            rw [getElem?_snoc] at hk2
            by_cases hlt : k < sigs.length
            · rw [if_pos hlt] at hk2
              exact Or.inl ⟨k, hk, hk2⟩
            · rw [if_neg hlt] at hk2
              by_cases hke : k = sigs.length
              · rw [if_pos hke] at hk2
                cases hk2
                exact Or.inr ⟨rfl, by omega⟩
              · rw [if_neg hke] at hk2; cases hk2

/-- Registering a type that has no slot yet returns the number of slots and
appends the type. -/
theorem try_push_miss {st : State α} {sigs : List α} (h : Inv st sigs) {T : α} (hT : T ∉ sigs) :
    ∃ st1, try_push T st = some (sigs.length, st1) ∧ Inv st1 (sigs ++ [T]) := by
  have := h.length_le_flagBound
  exact try_pushAux_miss _ 0 st (h.toScan hT) (by omega) (by omega)

/-- A type has at most one slot. -/
theorem Inv.index_unique {st : State α} {sigs : List α} (h : Inv st sigs) {T : α} {j k : Nat}
    (hj : sigs[j]? = some T) (hk : sigs[k]? = some T) : j = k := by
  rcases Nat.lt_trichotomy j k with hlt | heq | hgt
  · have h1 := (h.kept_else T j).2 hj
    have h2 := (h.kept_then T j).2 ⟨k, hlt, hk⟩
    rw [h1] at h2; cases h2
  · exact heq
  · have h1 := (h.kept_else T k).2 hk
    have h2 := (h.kept_then T k).2 ⟨j, hgt, hj⟩
    rw [h1] at h2; cases h2

theorem Inv.nodup {st : State α} {sigs : List α} (h : Inv st sigs) : sigs.Nodup := by
  rw [List.nodup_iff_getElem?_ne_getElem?]
  intro i j hij hj heq
  have hi : sigs[i]? = some sigs[i] := List.getElem?_eq_getElem (by omega)
  have hj2 : sigs[j]? = some sigs[i] := by rw [← heq, hi]
  have := h.index_unique hi hj2
  omega

/-- What one registration does to a registry described by `sigs`. -/
theorem try_push_spec {st : State α} {sigs : List α} (h : Inv st sigs) (T : α) :
    ∃ i st1 sigs1, try_push T st = some (i, st1) ∧ Inv st1 sigs1 ∧ sigs1[i]? = some T ∧
      (T ∈ sigs → st1 = st ∧ sigs1 = sigs) ∧
      (T ∉ sigs → i = sigs.length ∧ sigs1 = sigs ++ [T]) := by
  by_cases hT : T ∈ sigs
  · obtain ⟨k, hk⟩ := List.getElem?_of_mem hT
    exact ⟨k, st, sigs, try_push_hit h hk, h, hk, fun _ => ⟨rfl, rfl⟩, fun hn => absurd hT hn⟩
  · obtain ⟨st1, h1, h2⟩ := try_push_miss h hT
    refine ⟨sigs.length, st1, sigs ++ [T], h1, h2, ?_, fun hm => absurd hm hT, fun _ => ⟨rfl, rfl⟩⟩
    rw [getElem?_snoc]; simp

theorem getElem?_append_some {α : Type} {sigs : List α} {k : Nat} {T : α} (ext : List α)
    (hk : sigs[k]? = some T) : (sigs ++ ext)[k]? = some T := by
  have hlt : k < sigs.length := by
    by_contra hc
    rw [List.getElem?_eq_none (by omega)] at hk
    cases hk
  rw [List.getElem?_append_left hlt]; exact hk

/-- What a sequence of registrations does: the registry only grows at its end,
and each returned index is the slot that holds the registered type. -/
theorem registerAll_spec (Ts : List α) :
    ∀ (st : State α) (sigs : List α), Inv st sigs →
      ∃ is st1 sigs1, registerAll Ts st = some (is, st1) ∧ Inv st1 sigs1 ∧
        (∃ ext, sigs1 = sigs ++ ext) ∧ is.length = Ts.length ∧
        ∀ (p : Nat) (T : α) (i : Nat), Ts[p]? = some T → is[p]? = some i → sigs1[i]? = some T := by
  induction Ts with
  | nil =>
    intro st sigs h
    exact ⟨[], st, sigs, rfl, h, ⟨[], by simp⟩, rfl, by intro p T i hp; simp at hp⟩
  | cons T Ts ih =>
    intro st sigs h
    obtain ⟨i, st1, sigs1, e1, h1, hi, hin, hout⟩ := try_push_spec h T
    obtain ⟨is, st2, sigs2, e2, h2, ⟨ext, hext⟩, hlen, hidx⟩ := ih st1 sigs1 h1
    refine ⟨i :: is, st2, sigs2, by simp [registerAll, e1, e2], h2, ?_, by simp [hlen], ?_⟩
    · by_cases hT : T ∈ sigs
      · rw [(hin hT).2] at hext; exact ⟨ext, hext⟩
      · rw [(hout hT).2] at hext; exact ⟨[T] ++ ext, by rw [hext]; simp⟩
    · intro p U j hp hj
      cases p with
      | zero =>
        simp at hp hj
        subst hp; subst hj
        rw [hext]; exact getElem?_append_some ext hi
      | succ p =>
        simp at hp hj
        exact hidx p U j hp hj

/-- Every state a sequence of registrations reaches from the empty one is a
registry. -/
theorem registerAll_empty_spec (Ts : List α) :
    ∃ is st sigs, registerAll Ts (State.empty : State α) = some (is, st) ∧ Inv st sigs ∧
      is.length = Ts.length ∧ ∀ (p : Nat) (T : α) (i : Nat), Ts[p]? = some T → is[p]? = some i → sigs[i]? = some T := by
  obtain ⟨is, st, sigs, e, h, _, hlen, hidx⟩ := registerAll_spec Ts State.empty [] Inv.empty
  exact ⟨is, st, sigs, e, h, hlen, hidx⟩

theorem getAux_of_inv {st : State α} {sigs : List α} (h : Inv st sigs) (fuel : Nat) :
    ∀ N, N ≤ sigs.length → sigs.length < N + fuel → getAux fuel st N = some (sigs.drop N) := by
  induction fuel with
  | zero => intro N h1 h2; omega
  | succ fuel ih =>
    intro N h1 h2
    unfold getAux
    by_cases hN : N < sigs.length
    · have hf : flag st N = some sigs[N] := by rw [h.flag_eq, List.getElem?_eq_getElem hN]
      rw [hf, ih (N + 1) (by omega) (by omega), List.drop_eq_getElem_cons hN]
      simp [type_list.add]
    · have hf : flag st N = none := by rw [h.flag_eq]; simp; omega
      rw [hf, List.drop_eq_nil_of_le (by omega)]

/-- The snapshot `get` reads from a registry is the list that describes it. -/
theorem get_of_inv {st : State α} {sigs : List α} (h : Inv st sigs) : get st = some sigs := by
  have := h.length_le_flagBound
  have := getAux_of_inv h (flagBound st.flags + 1) 0 (by omega) (by omega)
  simpa [get] using this

end stateful_type_list

/-! ## A translation unit with a snapshot -/

namespace stateful_type_list

variable {α : Type} [DecidableEq α]

theorem registerAll_append (A B : List α) :
    ∀ (st : State α) (ia ib : List Nat) (sa sb : State α),
      registerAll A st = some (ia, sa) → registerAll B sa = some (ib, sb) →
      registerAll (A ++ B) st = some (ia ++ ib, sb) := by
  induction A with
  | nil =>
    intro st ia ib sa sb hA hB
    simp only [registerAll] at hA
    cases hA
    simpa using hB
  | cons T A ih =>
    intro st ia ib sa sb hA hB
    simp only [registerAll] at hA
    cases h1 : try_push T st with
    | none => rw [h1] at hA; cases hA
    | some r =>
      obtain ⟨i, st1⟩ := r
      rw [h1] at hA
      simp only [] at hA
      cases h2 : registerAll A st1 with
      | none => rw [h2] at hA; cases hA
      | some ra =>
        obtain ⟨ja, sa2⟩ := ra
        rw [h2] at hA
        simp only [] at hA
        cases hA
        have := ih st1 ja ib sa sb h2 hB
        simp [registerAll, h1, this]

/-- The registrations of a translation unit are `history ++ later`, and a
snapshot `funcs` is read after `history`.  A registration anywhere in the unit
of a type in the snapshot returns the slot the snapshot holds it at; a
registration of a type outside the snapshot returns an index past its end. -/
theorem index_of_registration {history later : List α} {is0 is : List Nat} {st st1 : State α}
    {funcs : List α}
    (hsnap : registerAll history (State.empty : State α) = some (is0, st))
    (hrun : registerAll (history ++ later) (State.empty : State α) = some (is, st1))
    (hget : get st = some funcs) {pos : Nat} {T : α} {i : Nat}
    (hpos : (history ++ later)[pos]? = some T) (hi : is[pos]? = some i) :
    Inv st funcs ∧ (T ∈ funcs → funcs[i]? = some T) ∧ (T ∉ funcs → funcs.length ≤ i) ∧
      ∃ ext, get st1 = some (funcs ++ ext) ∧ (funcs ++ ext)[i]? = some T := by
  obtain ⟨is0a, sta, sigs, e0, h0, _, _⟩ := registerAll_empty_spec history
  rw [hsnap] at e0
  cases e0
  have hf : funcs = sigs := by
    have := get_of_inv h0
    rw [hget] at this
    exact Option.some.inj this
  subst hf
  obtain ⟨isF, stF, sigsF, eF, hF, _, hidxF⟩ := registerAll_empty_spec (history ++ later)
  rw [hrun] at eF
  cases eF
  obtain ⟨is1, st2, sigs2, e2, h2, ⟨ext, hext⟩, _, _⟩ := registerAll_spec later st funcs h0
  have happ := registerAll_append history later (State.empty : State α) _ _ _ _ hsnap e2
  rw [hrun] at happ
  have hst : st1 = st2 := (Prod.mk.inj (Option.some.inj happ)).2
  subst hst
  have hsame : sigsF = funcs ++ ext := by
    have a := get_of_inv hF
    have b := get_of_inv h2
    rw [a] at b
    rw [← hext]
    exact Option.some.inj b
  have hslot : (funcs ++ ext)[i]? = some T := by
    rw [← hsame]; exact hidxF pos T i hpos hi
  have hInv : Inv st1 (funcs ++ ext) := by rw [← hext]; exact h2
  refine ⟨h0, ?_, ?_, ext, get_of_inv hInv, hslot⟩
  · intro hmem
    obtain ⟨k, hk⟩ := List.getElem?_of_mem hmem
    have hk2 : (funcs ++ ext)[k]? = some T := getElem?_append_some ext hk
    have := hInv.index_unique hslot hk2
    rw [this]; exact hk
  · intro hnot
    by_contra hlt
    have hlt2 : i < funcs.length := by omega
    rw [List.getElem?_append_left hlt2] at hslot
    exact hnot (List.getElem?_mem hslot)

end stateful_type_list

/-! ## Part 1: the table and the dispatch of `print` -/

namespace Part1
namespace Printer

variable {Ty V W : Type} [DecidableEq Ty]

/-- The array `create_vtable` builds has one entry per element of the
`type_list`, and entry `i` is `run<Derived>` of element `i`. -/
theorem part1_create_vtable_entries (D : Derived Ty V W) :
    ∀ (funcs : List (vtable_func Ty)) (vtable : List (Invoker Ty V W)),
      create_vtable D funcs = some vtable →
      vtable.length = funcs.length ∧
      ∀ (i : Nat) (f : vtable_func Ty), funcs[i]? = some f →
        ∃ inv, f.run D = some inv ∧ vtable[i]? = some inv := by
  intro funcs
  induction funcs with
  | nil =>
    intro vtable h
    simp only [create_vtable] at h
    cases h
  | cons g gs ih =>
    intro vtable h
    cases gs with
    | nil =>
      simp only [create_vtable] at h
      cases hg : g.run D with
      | none => rw [hg] at h; cases h
      | some inv =>
        rw [hg] at h
        cases h
        refine ⟨rfl, ?_⟩
        intro i f hf
        cases i with
        | zero =>
          simp at hf
          subst hf
          exact ⟨inv, hg, by simp⟩
        | succ i => simp at hf
    | cons g2 gs2 =>
      simp only [create_vtable] at h
      cases hg : g.run D with
      | none => rw [hg] at h; simp at h
      | some inv =>
        cases hgs : create_vtable D (g2 :: gs2) with
        | none => rw [hg, hgs] at h; simp at h
        | some rest =>
          rw [hg, hgs] at h
          cases h
          obtain ⟨hlen, hent⟩ := ih rest hgs
          refine ⟨by simp [hlen], ?_⟩
          intro i f hf
          cases i with
          | zero =>
            simp at hf
            subst hf
            exact ⟨inv, hg, by simp⟩
          | succ i =>
            have hf2 : (g2 :: gs2)[i]? = some f := by simpa using hf
            obtain ⟨inv2, h1, h2⟩ := hent i f hf2
            exact ⟨inv2, h1, by simpa using h2⟩

end Printer
end Part1

/-! ## Part 2: the table, the casts and the invokers -/

namespace Part2
namespace Printer

theorem forwarded_args_map {Ty V : Type} (args : List (Arg Ty V)) :
    forwarded_args (args.map TupleElem.forwarded) = some args := by
  induction args with
  | nil => rfl
  | cons a args ih => simp [forwarded_args, ih]

variable {Ty V W R : Type} [DecidableEq Ty]

/-- The array `create_vtable` builds has one entry per element of the
`type_list`, and entry `i` is `run<Derived>` of element `i`. -/
theorem part2_create_vtable_entries (D : Derived Ty V W R) :
    ∀ (funcs : List (vtable_func Ty)) (vtable : List (Invoker Ty V W R)),
      create_vtable D funcs = some vtable →
      vtable.length = funcs.length ∧
      ∀ (i : Nat) (f : vtable_func Ty), funcs[i]? = some f →
        ∃ inv, f.run D = some inv ∧ vtable[i]? = some inv := by
  intro funcs
  induction funcs with
  | nil =>
    intro vtable h
    simp only [create_vtable] at h
    cases h
  | cons g gs ih =>
    intro vtable h
    cases gs with
    | nil =>
      simp only [create_vtable] at h
      cases hg : g.run D with
      | none => rw [hg] at h; cases h
      | some inv =>
        rw [hg] at h
        cases h
        refine ⟨rfl, ?_⟩
        intro i f hf
        cases i with
        | zero =>
          simp at hf
          subst hf
          exact ⟨inv, hg, by simp⟩
        | succ i => simp at hf
    | cons g2 gs2 =>
      simp only [create_vtable] at h
      cases hg : g.run D with
      | none => rw [hg] at h; simp at h
      | some inv =>
        cases hgs : create_vtable D (g2 :: gs2) with
        | none => rw [hg, hgs] at h; simp at h
        | some rest =>
          rw [hg, hgs] at h
          cases h
          obtain ⟨hlen, hent⟩ := ih rest hgs
          refine ⟨by simp [hlen], ?_⟩
          intro i f hf
          cases i with
          | zero =>
            simp at hf
            subst hf
            exact ⟨inv, hg, by simp⟩
          | succ i =>
            have hf2 : (g2 :: gs2)[i]? = some f := by simpa using hf
            obtain ⟨inv2, h1, h2⟩ := hent i f hf2
            exact ⟨inv2, h1, by simpa using h2⟩

/-- The array is built when the pack is not empty and `run<Derived>` can be
instantiated for every element. -/
theorem part2_create_vtable_builds (D : Derived Ty V W R) :
    ∀ funcs : List (vtable_func Ty), funcs ≠ [] → (∀ f ∈ funcs, ∃ inv, f.run D = some inv) →
      ∃ vtable, create_vtable D funcs = some vtable := by
  intro funcs
  induction funcs with
  | nil => intro hne; exact absurd rfl hne
  | cons g gs ih =>
    intro _ h
    obtain ⟨inv, hg⟩ := h g (List.mem_cons_self g gs)
    cases gs with
    | nil => exact ⟨[inv], by simp [create_vtable, hg]⟩
    | cons g2 gs2 =>
      obtain ⟨rest, hgs⟩ := ih (by simp) (fun f hf => h f (List.mem_cons_of_mem g hf))
      exact ⟨inv :: rest, by simp [create_vtable, hg, hgs]⟩

/-- An empty pack gives no array, and neither does a pack with an element whose
`run<Derived>` cannot be instantiated. -/
theorem part2_create_vtable_none (D : Derived Ty V W R) :
    create_vtable D [] = none ∧
      ∀ funcs : List (vtable_func Ty), (∃ f ∈ funcs, f.run D = none) →
        create_vtable D funcs = none := by
  refine ⟨rfl, ?_⟩
  intro funcs
  induction funcs with
  | nil => rintro ⟨f, hf, _⟩; simp at hf
  | cons g gs ih =>
    rintro ⟨f, hf, hnone⟩
    cases gs with
    | nil =>
      simp only [List.mem_singleton] at hf
      subst hf
      simp [create_vtable, hnone]
    | cons g2 gs2 =>
      simp only [create_vtable]
      rcases List.mem_cons.1 hf with rfl | hmem
      · rw [hnone]
      · rw [ih ⟨f, hmem, hnone⟩]
        cases g.run D <;> rfl

/-- What the constructor stores. -/
theorem ctor_table {D : Derived Ty V W R} {this : Nat}
    {st : stateful_type_list.State (vtable_func Ty)} {p : Printer Ty V W R}
    {funcs : List (vtable_func Ty)} (hctor : ctor D this st = some p)
    (hget : stateful_type_list.get st = some funcs) :
    p.this = this ∧ create_vtable D funcs = some p.m_vtable := by
  simp only [ctor, hget] at hctor
  cases hv : create_vtable D funcs with
  | none => rw [hv] at hctor; cases hctor
  | some vtable =>
    rw [hv] at hctor
    cases hctor
    exact ⟨rfl, rfl⟩

/-- The tuple `print` and `print_to_string` build is of the type their invoker
casts to. -/
theorem as_tuple_forwarded (args : List (Arg Ty V)) :
    as_tuple (args.map Arg.type) (args.map TupleElem.forwarded) = some args := by
  simp [as_tuple, forwarded_args_map]

/-- The tuple `print_to_stream` builds is of the type its invoker casts to. -/
theorem as_tuple_with_ostream_forwarded (stream : Nat) (args : List (Arg Ty V)) :
    as_tuple_with_ostream (args.map Arg.type)
      (TupleElem.ostream stream :: args.map TupleElem.forwarded) = some (stream, args) := by
  simp [as_tuple_with_ostream, as_tuple_forwarded]

end Printer
end Part2

/-! ## The registry contract -/

namespace stateful_type_list

variable {α : Type} [DecidableEq α]

/-- C1. Registration is idempotent.  After any sequence `history` of
registrations, register `s`, then any sequence `between` of registrations (which
may again contain `s`, any number of times), then `s` once more: the second
registration returns the index the first one returned, leaves the state as it
found it, and the snapshot `get` reads holds `s` exactly once. -/
theorem try_push_idempotent (history between : List α) (s : α) :
    ∃ is0 st0 i st1 is1 st2 sigs,
      registerAll history (State.empty : State α) = some (is0, st0) ∧
      try_push s st0 = some (i, st1) ∧
      registerAll between st1 = some (is1, st2) ∧
      try_push s st2 = some (i, st2) ∧
      get st2 = some sigs ∧ sigs[i]? = some s ∧ sigs.count s = 1 := by
  obtain ⟨is0, st0, sigs0, e0, h0, _, _⟩ := registerAll_empty_spec history
  obtain ⟨i, st1, sigs1, e1, h1, hi, _, _⟩ := try_push_spec h0 s
  obtain ⟨is1, st2, sigs2, e2, h2, ⟨ext, hext⟩, _, _⟩ := registerAll_spec between st1 sigs1 h1
  have hi2 : sigs2[i]? = some s := by rw [hext]; exact getElem?_append_some ext hi
  exact ⟨is0, st0, i, st1, is1, st2, sigs2, e0, e1, e2, try_push_hit h2 hi2, get_of_inv h2, hi2,
    List.count_eq_one_of_mem h2.nodup (List.getElem?_mem hi2)⟩

/-- C2. Registration is injective.  In any sequence of registrations, two
registrations of distinct types return distinct indices. -/
theorem try_push_injective (Ts : List α) (is : List Nat) (st : State α)
    (hrun : registerAll Ts (State.empty : State α) = some (is, st))
    (p q : Nat) (s1 s2 : α) (i1 i2 : Nat)
    (hp : Ts[p]? = some s1) (hq : Ts[q]? = some s2)
    (hi1 : is[p]? = some i1) (hi2 : is[q]? = some i2) (hne : s1 ≠ s2) : i1 ≠ i2 := by
  obtain ⟨is1, st1, sigs, e, _, _, hidx⟩ := registerAll_empty_spec Ts
  rw [hrun] at e
  cases e
  intro heq
  have h1 := hidx p s1 i1 hp hi1
  have h2 := hidx q s2 i2 hq hi2
  rw [heq, h2] at h1
  exact hne (Option.some.inj h1).symm

/-- C3. The registry grows monotonically and indices are stable.  In the state
after any sequence of registrations, with snapshot `sigs`, registering `s`
returns an index and leaves a state with snapshot `sigs1` such that: a type not
in `sigs` gets index `sigs.length` and makes the length one more; the length
never decreases; and every type that had slot `k` still has slot `k`, both in
the snapshot and as the index a new registration of it returns, before the call
and after it. -/
theorem try_push_monotone (history : List α) (s : α) :
    ∃ is0 st sigs i st1 sigs1,
      registerAll history (State.empty : State α) = some (is0, st) ∧ get st = some sigs ∧
      try_push s st = some (i, st1) ∧ get st1 = some sigs1 ∧
      (s ∉ sigs → i = sigs.length ∧ sigs1.length = sigs.length + 1) ∧
      sigs.length ≤ sigs1.length ∧
      ∀ (t : α) (k : Nat), sigs[k]? = some t →
        sigs1[k]? = some t ∧ try_push t st = some (k, st) ∧ try_push t st1 = some (k, st1) := by
  obtain ⟨is0, st, sigs, e0, h0, _, _⟩ := registerAll_empty_spec history
  obtain ⟨i, st1, sigs1, e1, h1, _, hin, hout⟩ := try_push_spec h0 s
  have hext : ∃ ext, sigs1 = sigs ++ ext := by
    by_cases hs : s ∈ sigs
    · exact ⟨[], by rw [(hin hs).2]; simp⟩
    · exact ⟨[s], (hout hs).2⟩
  obtain ⟨ext, hext⟩ := hext
  refine ⟨is0, st, sigs, i, st1, sigs1, e0, get_of_inv h0, e1, get_of_inv h1, ?_, ?_, ?_⟩
  · intro hs
    refine ⟨(hout hs).1, ?_⟩
    rw [(hout hs).2]; simp
  · rw [hext]; simp
  · intro t k hk
    have hk1 : sigs1[k]? = some t := by rw [hext]; exact getElem?_append_some ext hk
    exact ⟨hk1, try_push_hit h0 hk, try_push_hit h1 hk1⟩

/-- C2, at a concrete input: `7, 8, 7, 9` get the indices `0, 1, 0, 2`, and the
registrations of `8` and `9` differ. -/
theorem try_push_injective_witness :
    registerAll [7, 8, 7, 9] (State.empty : State Nat) =
        some ([0, 1, 0, 2], ⟨[(2, 9), (1, 8), (0, 7)],
          [((9, 2), false), ((9, 1), true), ((9, 0), true), ((8, 1), false), ((8, 0), true),
            ((7, 0), false)]⟩) ∧
      (1 : Nat) ≠ 2 :=
  ⟨by decide,
    try_push_injective [7, 8, 7, 9] [0, 1, 0, 2]
      ⟨[(2, 9), (1, 8), (0, 7)],
        [((9, 2), false), ((9, 1), true), ((9, 0), true), ((8, 1), false), ((8, 0), true),
          ((7, 0), false)]⟩ (by decide) 1 3 8 9 1 2
      (by decide) (by decide) (by decide) (by decide) (by decide)⟩

end stateful_type_list

/-! ## Part 1: table correctness -/

namespace Part1
namespace Printer

variable {Ty V W : Type} [DecidableEq Ty]

/-- C4. Table correctness of the plain operation (part 1).  The registrations of
the translation unit are `history ++ later`; the table of `Derived` was built
from the snapshot `funcs` read after `history`, which holds the signature of the
call `print(args...)`; `Index` is what the registration of that call returned,
wherever in the unit it stands.  Then `Derived` has a `print` for these argument
types, and the call through the base object is one call of that `print`, on the
same object, with the arguments `args` in their order. -/
theorem print_calls_derived_print (D : Derived Ty V W)
    (history later : List (vtable_func Ty)) (is0 is : List Nat)
    (st st1 : stateful_type_list.State (vtable_func Ty)) (funcs : List (vtable_func Ty))
    (this : Nat) (p : Printer Ty V W) (args : List (Arg Ty V)) (pos Index : Nat) (w : W)
    (hsnap : stateful_type_list.registerAll history stateful_type_list.State.empty
      = some (is0, st))
    (hrun : stateful_type_list.registerAll (history ++ later) stateful_type_list.State.empty
      = some (is, st1))
    (hget : stateful_type_list.get st = some funcs)
    (hctor : ctor D this st = some p)
    (hmem : { Args := args.map Arg.type } ∈ funcs)
    (hpos : (history ++ later)[pos]? = some { Args := args.map Arg.type })
    (hi : is[pos]? = some Index) :
    ∃ f, D.print (args.map Arg.type) = some f ∧ p.this = this ∧
      print p Index args w = some (f this args w) := by
  obtain ⟨_, hin, _⟩ := stateful_type_list.index_of_registration hsnap hrun hget hpos hi
  have hslot := hin hmem
  simp only [ctor, hget] at hctor
  cases hv : create_vtable D funcs with
  | none => rw [hv] at hctor; cases hctor
  | some vtable =>
    rw [hv] at hctor
    cases hctor
    obtain ⟨_, hent⟩ := part1_create_vtable_entries D funcs vtable hv
    obtain ⟨inv, hinv, hidx⟩ := hent Index _ hslot
    simp only [vtable_func.run] at hinv
    cases hf : D.print (args.map Arg.type) with
    | none => rw [hf] at hinv; cases hinv
    | some f =>
      rw [hf] at hinv
      cases hinv
      refine ⟨f, rfl, rfl, ?_⟩
      simp only [print, hidx]
      simp

/-- C4, at the call of `main`: `p->print(5, d, s)` through the `Printer` that
`make_printer()` built for `PrinterImpl` is `PrinterImpl::print` on `(5, d, s)`,
which writes three lines to `std::cout`. -/
theorem print_calls_derived_print_witness :
    (∃ f, (PrinterImpl main_fmt).print (main_args.map Arg.type) = some f ∧
      main_printer.this = 0 ∧
      print main_printer 0 main_args World.blank = some (f 0 main_args World.blank)) ∧
    (print main_printer 0 main_args World.blank).map World.cout
      = some "5\n2.5\nHello, world!\n" :=
  ⟨print_calls_derived_print (PrinterImpl main_fmt) [main_func] [] [0] [0]
      main_registry main_registry [main_func] 0 main_printer main_args 0 0 World.blank
      (by decide) (by decide) (by decide) rfl (by decide) (by decide) (by decide),
    by decide⟩

end Printer
end Part1

/-! ## Part 2: the dispatch contract -/

namespace Part2
namespace Printer

variable {Ty V W R : Type} [DecidableEq Ty]

/-- The entry of the table at the index of a registered call.  The registrations
of the translation unit are `history ++ later`, the table of `p` was built from
the snapshot `funcs` read after `history`, `f` is in the snapshot and `Index` is
what a registration of `f` returned, anywhere in the unit. -/
theorem entry_of_registration {D : Derived Ty V W R}
    {history later : List (vtable_func Ty)} {is0 is : List Nat}
    {st st1 : stateful_type_list.State (vtable_func Ty)} {funcs : List (vtable_func Ty)}
    {this : Nat} {p : Printer Ty V W R} {f : vtable_func Ty} {pos Index : Nat}
    (hsnap : stateful_type_list.registerAll history stateful_type_list.State.empty
      = some (is0, st))
    (hrun : stateful_type_list.registerAll (history ++ later) stateful_type_list.State.empty
      = some (is, st1))
    (hget : stateful_type_list.get st = some funcs)
    (hctor : ctor D this st = some p)
    (hmem : f ∈ funcs)
    (hpos : (history ++ later)[pos]? = some f)
    (hi : is[pos]? = some Index) :
    p.this = this ∧ Index < p.m_vtable.length ∧
      ∃ inv, f.run D = some inv ∧ p.m_vtable[Index]? = some inv := by
  obtain ⟨_, hin, _⟩ := stateful_type_list.index_of_registration hsnap hrun hget hpos hi
  have hslot := hin hmem
  obtain ⟨hthis, hv⟩ := ctor_table hctor hget
  obtain ⟨hlen, hent⟩ := part2_create_vtable_entries D funcs p.m_vtable hv
  obtain ⟨inv, hinv, hidx⟩ := hent Index f hslot
  refine ⟨hthis, ?_, inv, hinv, hidx⟩
  by_contra hc
  rw [List.getElem?_eq_none (by omega)] at hidx
  cases hidx

/-- C5. Result marshalling.  For a `PrinterImpl` whose table was built from a
snapshot that holds the signatures of `print_to_stream(stream, args...)` and of
`print_to_string(args...)`, with `iS` and `iT` the indices their registrations
returned: both calls are defined, and the string `print_to_string` returns is
the text `print_to_stream` leaves in `stream` when `stream` was empty. -/
theorem print_to_string_eq_stream_text (fmt : Arg Ty V → String)
    (history later : List (vtable_func Ty)) (is0 is : List Nat)
    (st st1 : stateful_type_list.State (vtable_func Ty)) (funcs : List (vtable_func Ty))
    (this : Nat) (p : Printer Ty V World String) (stream : Nat) (args : List (Arg Ty V))
    (posS iS posT iT : Nat) (w : World)
    (hsnap : stateful_type_list.registerAll history stateful_type_list.State.empty
      = some (is0, st))
    (hrun : stateful_type_list.registerAll (history ++ later) stateful_type_list.State.empty
      = some (is, st1))
    (hget : stateful_type_list.get st = some funcs)
    (hctor : ctor (PrinterImpl fmt) this st = some p)
    (hmemS : print_to_stream_func stream args ∈ funcs)
    (hposS : (history ++ later)[posS]? = some (print_to_stream_func stream args))
    (hiS : is[posS]? = some iS)
    (hmemT : print_to_string_func args ∈ funcs)
    (hposT : (history ++ later)[posT]? = some (print_to_string_func args))
    (hiT : is[posT]? = some iT)
    (hempty : w.ostreams stream = "") :
    ∃ w1 str w2, print_to_stream p iS stream args w = some w1 ∧
      print_to_string p iT args w = some (str, w2) ∧ str = w1.ostreams stream := by
  obtain ⟨_, _, invS, hrunS, hidxS⟩ :=
    entry_of_registration hsnap hrun hget hctor hmemS hposS hiS
  obtain ⟨_, _, invT, hrunT, hidxT⟩ :=
    entry_of_registration hsnap hrun hget hctor hmemT hposT hiT
  simp only [vtable_func.run, print_to_stream_func, PrinterImpl] at hrunS
  simp only [vtable_func.run, print_to_string_func, PrinterImpl] at hrunT
  cases hrunS
  cases hrunT
  have hS : print_to_stream p iS stream args w = some
      { cout := w.cout
        ostreams := fun s =>
          if s = stream then insert_lines fmt args (w.ostreams s) else w.ostreams s } := by
    simp only [print_to_stream, hidxS, vtable_func.run_impl, as_tuple_with_ostream_forwarded]
  have hT : print_to_string p iT args w = some (insert_lines fmt args "", w) := by
    simp only [print_to_string, hidxT, vtable_func.run_impl, as_tuple_forwarded]
  exact ⟨_, _, _, hS, hT, by simp [hempty]⟩

/-- C5, at the arguments of `main`: `print_to_string(5, d, s)` returns the three
lines that `print_to_stream(stream, 5, d, s)` writes to the empty stream `1`. -/
theorem print_to_string_eq_stream_text_witness :
    (∃ w1 str w2, print_to_stream three_calls_printer 1 1 main_args World.blank = some w1 ∧
      print_to_string three_calls_printer 2 main_args World.blank = some (str, w2) ∧
      str = w1.ostreams 1) ∧
    (print_to_string three_calls_printer 2 main_args World.blank).map Prod.fst
      = some "5\n2.5\nHello, world!\n" ∧
    (print_to_stream three_calls_printer 1 1 main_args World.blank).map (fun w1 => w1.ostreams 1)
      = some "5\n2.5\nHello, world!\n" :=
  ⟨print_to_string_eq_stream_text main_fmt three_calls [] [0, 1, 2] [0, 1, 2]
      three_calls_registry three_calls_registry three_calls 0 three_calls_printer 1 main_args
      1 1 2 2 World.blank
      (by decide) (by decide) (by decide) rfl (by decide) (by decide) (by decide)
      (by decide) (by decide) (by decide) rfl,
    by decide, by decide⟩

/-- C6. Trailing-argument-only identity.  The type a call
`print_to_stream(stream, args...)` registers is
`vtable_func<Function::PrintToStream, Args...>` with `Args...` the types of
`args` alone.  So two such calls whose trailing argument types agree get the
same index, whatever their streams are, wherever they stand among the
registrations, and from any one state they resolve alike. -/
theorem print_to_stream_index_ignores_stream (history : List (vtable_func Ty)) (is : List Nat)
    (st : stateful_type_list.State (vtable_func Ty))
    (stream1 stream2 : Nat) (args1 args2 : List (Arg Ty V)) (p q i1 i2 : Nat)
    (hrun : stateful_type_list.registerAll history stateful_type_list.State.empty
      = some (is, st))
    (htypes : args1.map Arg.type = args2.map Arg.type)
    (hp : history[p]? = some (print_to_stream_func stream1 args1))
    (hq : history[q]? = some (print_to_stream_func stream2 args2))
    (hi1 : is[p]? = some i1) (hi2 : is[q]? = some i2) :
    print_to_stream_func stream1 args1
        = { F := Function.PrintToStream, Ts := args1.map Arg.type } ∧
      i1 = i2 ∧
      ∀ st0 : stateful_type_list.State (vtable_func Ty),
        print_to_stream_Index stream1 args1 st0 = print_to_stream_Index stream2 args2 st0 := by
  obtain ⟨is1, st1, sigs, e, hInv, _, hidx⟩ := stateful_type_list.registerAll_empty_spec history
  rw [hrun] at e
  cases e
  have hsame : print_to_stream_func stream2 args2 = print_to_stream_func stream1 args1 := by
    simp only [print_to_stream_func, htypes]
  rw [hsame] at hq
  refine ⟨rfl, hInv.index_unique (hidx p _ i1 hp hi1) (hidx q _ i2 hq hi2), ?_⟩
  intro st0
  simp only [print_to_stream_Index, hsame]

/-- C6, at a concrete input: `print_to_stream` on the streams `1` and `2` with
the arguments of `main` both get index `0`. -/
theorem print_to_stream_index_ignores_stream_witness :
    print_to_stream_func 1 main_args
        = { F := Function.PrintToStream, Ts := main_args.map Arg.type } ∧
      (0 : Nat) = 0 ∧
      ∀ st0 : stateful_type_list.State (vtable_func CppType),
        print_to_stream_Index 1 main_args st0 = print_to_stream_Index 2 main_args st0 :=
  print_to_stream_index_ignores_stream
    [print_to_stream_func 1 main_args, print_to_stream_func 2 main_args] [0, 0]
    { flags := [(0, print_to_stream_func 1 main_args)],
      pushed := [((print_to_stream_func 1 main_args, 0), false)] }
    1 2 main_args main_args 0 1 0 0 (by decide) rfl (by decide) (by decide) (by decide) (by decide)

/-- C7. Dispatch table invariant.  In the state after any sequence of
registrations, with snapshot `funcs`, let the constructor for `Derived` have
built the table of `p`.  The table is as long as the snapshot, and for every
index `i` below that length, with `f` the signature at slot `i` (the one whose
registration returns `i`), entry `i` is `f.run<Derived>` and calls the member of
`Derived` that the operation kind of `f` names, instantiated for the argument
types of `f`: run on a tuple of these types it is one call of that member on
the object and the arguments of the tuple; for a `void` member the result slot
is passed on as it came, for a member that returns a value that value is left
in a present result slot. -/
theorem create_vtable_invariant (D : Derived Ty V W R) (history : List (vtable_func Ty))
    (is0 : List Nat) (st : stateful_type_list.State (vtable_func Ty))
    (funcs : List (vtable_func Ty)) (this : Nat) (p : Printer Ty V W R)
    (hsnap : stateful_type_list.registerAll history stateful_type_list.State.empty
      = some (is0, st))
    (hget : stateful_type_list.get st = some funcs)
    (hctor : ctor D this st = some p) :
    p.this = this ∧ p.m_vtable.length = funcs.length ∧
    ∀ i : Nat, i < funcs.length →
      ∃ f inv, funcs[i]? = some f ∧ p.m_vtable[i]? = some inv ∧
        stateful_type_list.try_push f st = some (i, st) ∧ f.run D = some inv ∧
        (f.F = Function.Print → ∃ func, D.print f.Ts = some func ∧
          ∀ (printer : Nat) (args : List (Arg Ty V)) (w : W), args.map Arg.type = f.Ts →
            (∀ call, func = MemFn.returns_void call →
              ∀ ret, inv printer (args.map TupleElem.forwarded) ret w
                = some (ret, call printer args w)) ∧
            (∀ call, func = MemFn.returns call →
              ∀ old, inv printer (args.map TupleElem.forwarded) (some old) w
                = some (some (some (call printer args w).1), (call printer args w).2))) ∧
        (f.F = Function.PrintToStream → ∃ func, D.print_to_stream f.Ts = some func ∧
          ∀ (printer stream : Nat) (args : List (Arg Ty V)) (w : W),
            args.map Arg.type = f.Ts →
            (∀ call, func = MemFn.returns_void call →
              ∀ ret, inv printer (TupleElem.ostream stream :: args.map TupleElem.forwarded) ret w
                = some (ret, call printer (stream, args) w)) ∧
            (∀ call, func = MemFn.returns call →
              ∀ old,
                inv printer (TupleElem.ostream stream :: args.map TupleElem.forwarded)
                    (some old) w
                  = some (some (some (call printer (stream, args) w).1),
                      (call printer (stream, args) w).2))) ∧
        (f.F = Function.PrintToString → ∃ func, D.print_to_string f.Ts = some func ∧
          ∀ (printer : Nat) (args : List (Arg Ty V)) (w : W), args.map Arg.type = f.Ts →
            (∀ call, func = MemFn.returns_void call →
              ∀ ret, inv printer (args.map TupleElem.forwarded) ret w
                = some (ret, call printer args w)) ∧
            (∀ call, func = MemFn.returns call →
              ∀ old, inv printer (args.map TupleElem.forwarded) (some old) w
                = some (some (some (call printer args w).1), (call printer args w).2))) := by
  obtain ⟨is1, st1, sigs, e, hInv, _, _⟩ := stateful_type_list.registerAll_empty_spec history
  rw [hsnap] at e
  cases e
  have hf : funcs = sigs := by
    have := stateful_type_list.get_of_inv hInv
    rw [hget] at this
    exact Option.some.inj this
  subst hf
  obtain ⟨hthis, hv⟩ := ctor_table hctor hget
  obtain ⟨hlen, hent⟩ := part2_create_vtable_entries D funcs p.m_vtable hv
  refine ⟨hthis, hlen, ?_⟩
  intro i hi
  have hslot : funcs[i]? = some funcs[i] := List.getElem?_eq_getElem hi
  obtain ⟨inv, hinv, hidx⟩ := hent i funcs[i] hslot
  refine ⟨funcs[i], inv, hslot, hidx, stateful_type_list.try_push_hit hInv hslot, hinv,
    ?_, ?_, ?_⟩
  · intro hF
    simp only [vtable_func.run, hF] at hinv
    cases hm : D.print funcs[i].Ts with
    | none => rw [hm] at hinv; cases hinv
    | some func =>
      rw [hm] at hinv
      cases hinv
      refine ⟨func, rfl, ?_⟩
      intro printer args w hty
      have hc : as_tuple funcs[i].Ts (args.map TupleElem.forwarded) = some args := by
        rw [← hty]; exact as_tuple_forwarded args
      constructor
      · intro call hcall ret
        subst hcall
        simp only [vtable_func.run_impl, hc]
      · intro call hcall old
        subst hcall
        simp only [vtable_func.run_impl, hc]
  · intro hF
    simp only [vtable_func.run, hF] at hinv
    cases hm : D.print_to_stream funcs[i].Ts with
    | none => rw [hm] at hinv; cases hinv
    | some func =>
      rw [hm] at hinv
      cases hinv
      refine ⟨func, rfl, ?_⟩
      intro printer stream args w hty
      have hc : as_tuple_with_ostream funcs[i].Ts
          (TupleElem.ostream stream :: args.map TupleElem.forwarded) = some (stream, args) := by
        rw [← hty]; exact as_tuple_with_ostream_forwarded stream args
      constructor
      · intro call hcall ret
        subst hcall
        simp only [vtable_func.run_impl, hc]
      · intro call hcall old
        subst hcall
        simp only [vtable_func.run_impl, hc]
  · intro hF
    simp only [vtable_func.run, hF] at hinv
    cases hm : D.print_to_string funcs[i].Ts with
    | none => rw [hm] at hinv; cases hinv
    | some func =>
      rw [hm] at hinv
      cases hinv
      refine ⟨func, rfl, ?_⟩
      intro printer args w hty
      have hc : as_tuple funcs[i].Ts (args.map TupleElem.forwarded) = some args := by
        rw [← hty]; exact as_tuple_forwarded args
      constructor
      · intro call hcall ret
        subst hcall
        simp only [vtable_func.run_impl, hc]
      · intro call hcall old
        subst hcall
        simp only [vtable_func.run_impl, hc]

/-- C7, at a concrete input: the table the constructor built for `PrinterImpl`
from the registry of `three_calls` has three entries, and the entry at index `2`
is the invoker of `print_to_string(5, d, s)`. -/
theorem create_vtable_invariant_witness :
    three_calls_printer.this = 0 ∧
    three_calls_printer.m_vtable.length = three_calls.length ∧
    (∃ f inv, three_calls[2]? = some f ∧ three_calls_printer.m_vtable[2]? = some inv ∧
      stateful_type_list.try_push f three_calls_registry = some (2, three_calls_registry) ∧
      f.run (PrinterImpl main_fmt) = some inv ∧
      (f.F = Function.Print → ∃ func, (PrinterImpl main_fmt).print f.Ts = some func ∧
        ∀ (printer : Nat) (args : List (Arg CppType MainValue)) (w : World),
          args.map Arg.type = f.Ts →
          (∀ call, func = MemFn.returns_void call →
            ∀ ret, inv printer (args.map TupleElem.forwarded) ret w
              = some (ret, call printer args w)) ∧
          (∀ call, func = MemFn.returns call →
            ∀ old, inv printer (args.map TupleElem.forwarded) (some old) w
              = some (some (some (call printer args w).1), (call printer args w).2))) ∧
      (f.F = Function.PrintToStream →
        ∃ func, (PrinterImpl main_fmt).print_to_stream f.Ts = some func ∧
          ∀ (printer stream : Nat) (args : List (Arg CppType MainValue)) (w : World),
            args.map Arg.type = f.Ts →
            (∀ call, func = MemFn.returns_void call →
              ∀ ret, inv printer (TupleElem.ostream stream :: args.map TupleElem.forwarded) ret w
                = some (ret, call printer (stream, args) w)) ∧
            (∀ call, func = MemFn.returns call →
              ∀ old,
                inv printer (TupleElem.ostream stream :: args.map TupleElem.forwarded)
                    (some old) w
                  = some (some (some (call printer (stream, args) w).1),
                      (call printer (stream, args) w).2))) ∧
      (f.F = Function.PrintToString →
        ∃ func, (PrinterImpl main_fmt).print_to_string f.Ts = some func ∧
          ∀ (printer : Nat) (args : List (Arg CppType MainValue)) (w : World),
            args.map Arg.type = f.Ts →
            (∀ call, func = MemFn.returns_void call →
              ∀ ret, inv printer (args.map TupleElem.forwarded) ret w
                = some (ret, call printer args w)) ∧
            (∀ call, func = MemFn.returns call →
              ∀ old, inv printer (args.map TupleElem.forwarded) (some old) w
                = some (some (some (call printer args w).1), (call printer args w).2)))) ∧
    (three_calls_printer.m_vtable[2]?.bind fun inv =>
        (inv 0 (main_args.map TupleElem.forwarded) (some none) World.blank).map Prod.fst)
      = some (some (some "5\n2.5\nHello, world!\n")) :=
  ⟨(create_vtable_invariant (PrinterImpl main_fmt) three_calls [0, 1, 2] three_calls_registry
      three_calls 0 three_calls_printer (by decide) (by decide) rfl).1,
    (create_vtable_invariant (PrinterImpl main_fmt) three_calls [0, 1, 2] three_calls_registry
      three_calls 0 three_calls_printer (by decide) (by decide) rfl).2.1,
    (create_vtable_invariant (PrinterImpl main_fmt) three_calls [0, 1, 2] three_calls_registry
      three_calls 0 three_calls_printer (by decide) (by decide) rfl).2.2 2 (by decide),
    by decide⟩

/-- C9, as amended.  Result slot contract of the invoker.  For every class and
signature, on a tuple of the argument types of the signature: an invoker whose
member in the class returns a value, run with a present result slot, leaves in
the slot exactly the value the member returned on the arguments of the tuple,
whatever the slot held; an invoker whose member returns `void` leaves the result
slot as it was passed, null or not.  This holds for each of the three operation
kinds, by the return type of the member the kind names. -/
theorem invoker_result_slot (D : Derived Ty V W R) (Ts : List Ty) (args : List (Arg Ty V))
    (stream this : Nat) (w : W) (hargs : args.map Arg.type = Ts) :
    (∀ call, D.print_to_string Ts = some (MemFn.returns call) →
      ∃ inv, vtable_func.run { F := Function.PrintToString, Ts := Ts } D = some inv ∧
        ∀ old : Option R, inv this (args.map TupleElem.forwarded) (some old) w
          = some (some (some (call this args w).1), (call this args w).2)) ∧
    (∀ call, D.print Ts = some (MemFn.returns_void call) →
      ∃ inv, vtable_func.run { F := Function.Print, Ts := Ts } D = some inv ∧
        ∀ ret : RetSlot R, inv this (args.map TupleElem.forwarded) ret w
          = some (ret, call this args w)) ∧
    (∀ call, D.print_to_stream Ts = some (MemFn.returns_void call) →
      ∃ inv, vtable_func.run { F := Function.PrintToStream, Ts := Ts } D = some inv ∧
        ∀ ret : RetSlot R,
          inv this (TupleElem.ostream stream :: args.map TupleElem.forwarded) ret w
            = some (ret, call this (stream, args) w)) ∧
    (∀ call, D.print_to_string Ts = some (MemFn.returns_void call) →
      ∃ inv, vtable_func.run { F := Function.PrintToString, Ts := Ts } D = some inv ∧
        ∀ ret : RetSlot R, inv this (args.map TupleElem.forwarded) ret w
          = some (ret, call this args w)) ∧
    (∀ call, D.print Ts = some (MemFn.returns call) →
      ∃ inv, vtable_func.run { F := Function.Print, Ts := Ts } D = some inv ∧
        ∀ old : Option R, inv this (args.map TupleElem.forwarded) (some old) w
          = some (some (some (call this args w).1), (call this args w).2)) ∧
    (∀ call, D.print_to_stream Ts = some (MemFn.returns call) →
      ∃ inv, vtable_func.run { F := Function.PrintToStream, Ts := Ts } D = some inv ∧
        ∀ old : Option R,
          inv this (TupleElem.ostream stream :: args.map TupleElem.forwarded) (some old) w
            = some (some (some (call this (stream, args) w).1),
                (call this (stream, args) w).2)) := by
  subst hargs
  have hc := as_tuple_forwarded args
  have hcs := as_tuple_with_ostream_forwarded stream args
  refine ⟨?_, ?_, ?_, ?_, ?_, ?_⟩
  · intro call h
    refine ⟨vtable_func.run_impl (as_tuple (args.map Arg.type)) (MemFn.returns call),
      by simp only [vtable_func.run, h], ?_⟩
    intro old
    simp only [vtable_func.run_impl, hc]
  · intro call h
    refine ⟨vtable_func.run_impl (as_tuple (args.map Arg.type)) (MemFn.returns_void call),
      by simp only [vtable_func.run, h], ?_⟩
    intro ret
    simp only [vtable_func.run_impl, hc]
  · intro call h
    refine ⟨vtable_func.run_impl (as_tuple_with_ostream (args.map Arg.type))
        (MemFn.returns_void call), by simp only [vtable_func.run, h], ?_⟩
    intro ret
    simp only [vtable_func.run_impl, hcs]
  · intro call h
    refine ⟨vtable_func.run_impl (as_tuple (args.map Arg.type)) (MemFn.returns_void call),
      by simp only [vtable_func.run, h], ?_⟩
    intro ret
    simp only [vtable_func.run_impl, hc]
  · intro call h
    refine ⟨vtable_func.run_impl (as_tuple (args.map Arg.type)) (MemFn.returns call),
      by simp only [vtable_func.run, h], ?_⟩
    intro old
    simp only [vtable_func.run_impl, hc]
  · intro call h
    refine ⟨vtable_func.run_impl (as_tuple_with_ostream (args.map Arg.type))
        (MemFn.returns call), by simp only [vtable_func.run, h], ?_⟩
    intro old
    simp only [vtable_func.run_impl, hcs]

/-- C9, as amended, at the arguments of `main`: the three invokers of
`PrinterImpl`, and the `Print` invoker of a class whose `print` returns a
value. -/
theorem invoker_result_slot_witness :
    (∃ inv, vtable_func.run { F := Function.PrintToString, Ts := main_args.map Arg.type }
        (PrinterImpl main_fmt) = some inv ∧
      ∀ old : Option String, inv 0 (main_args.map TupleElem.forwarded) (some old) World.blank
        = some (some (some (insert_lines main_fmt main_args "", World.blank).1),
            (insert_lines main_fmt main_args "", World.blank).2)) ∧
    (∃ inv, vtable_func.run { F := Function.Print, Ts := main_args.map Arg.type }
        (PrinterImpl main_fmt) = some inv ∧
      ∀ ret : RetSlot String, inv 0 (main_args.map TupleElem.forwarded) ret World.blank
        = some (ret, { World.blank with
            cout := insert_lines main_fmt main_args World.blank.cout })) ∧
    (∃ inv, vtable_func.run { F := Function.PrintToStream, Ts := main_args.map Arg.type }
        (PrinterImpl main_fmt) = some inv ∧
      ∀ ret : RetSlot String,
        inv 0 (TupleElem.ostream 1 :: main_args.map TupleElem.forwarded) ret World.blank
          = some (ret, { World.blank with
              ostreams := fun s =>
                if s = 1 then insert_lines main_fmt main_args (World.blank.ostreams s)
                else World.blank.ostreams s })) ∧
    (∃ inv, vtable_func.run { F := Function.Print, Ts := main_args.map Arg.type }
        (PrinterReturningText main_fmt) = some inv ∧
      ∀ old : Option String, inv 0 (main_args.map TupleElem.forwarded) (some old) World.blank
        = some (some (some (print_returning_text main_fmt 0 main_args World.blank).1),
            (print_returning_text main_fmt 0 main_args World.blank).2)) :=
  ⟨(invoker_result_slot (PrinterImpl main_fmt) (main_args.map Arg.type) main_args 1 0
      World.blank rfl).1 (fun _ args w => (insert_lines main_fmt args "", w)) rfl,
    (invoker_result_slot (PrinterImpl main_fmt) (main_args.map Arg.type) main_args 1 0
      World.blank rfl).2.1
      (fun _ args w => { w with cout := insert_lines main_fmt args w.cout }) rfl,
    (invoker_result_slot (PrinterImpl main_fmt) (main_args.map Arg.type) main_args 1 0
      World.blank rfl).2.2.1
      (fun _ sa w =>
        { w with
          ostreams := fun s =>
            if s = sa.1 then insert_lines main_fmt sa.2 (w.ostreams s) else w.ostreams s })
      rfl,
    (invoker_result_slot (PrinterReturningText main_fmt) (main_args.map Arg.type) main_args 1 0
      World.blank rfl).2.2.2.2.1 (print_returning_text main_fmt) rfl⟩

/-- C9 as stated fails: for a class whose `print` returns a value, the invoker
of the operation kind `Print` does not leave the result slot as it was passed.
Given a present, empty slot it leaves the returned text in it, and given the
null slot it is undefined. -/
theorem invoker_result_slot_counterexample :
    ∃ inv, vtable_func.run { F := Function.Print, Ts := main_args.map Arg.type }
        (PrinterReturningText main_fmt) = some inv ∧
      (inv 0 (main_args.map TupleElem.forwarded) (some none) World.blank).map Prod.fst
        = some (some (some "5\n2.5\nHello, world!\n")) ∧
      inv 0 (main_args.map TupleElem.forwarded) none World.blank = none ∧
      ¬ (∀ ret : RetSlot String, ∃ w1,
          inv 0 (main_args.map TupleElem.forwarded) ret World.blank = some (ret, w1)) :=
  ⟨vtable_func.run_impl (as_tuple (main_args.map Arg.type))
      (MemFn.returns (print_returning_text main_fmt)),
    rfl, by decide, rfl,
    fun h => by
      obtain ⟨w1, hw⟩ := h none
      exact Option.noConfusion hw⟩

/-- C10, as amended.  In-contract dispatch.  The table of `p` was built from a
snapshot that holds the signature `f` of a call with arguments `args`, and
`Index` is what the registration of the call returned.  Then `m_vtable[Index]`
is in range, whatever the operation kind of `f`; a `print` or `print_to_stream`
call whose member in `Derived` returns `void` is one call of that member; and
for a `print_to_string` call whose member in `Derived` returns a value, the
invoker leaves that value in the result slot, so `*ret` is defined and
`print_to_string` returns what the member returned. -/
theorem dispatch_in_contract (D : Derived Ty V W String)
    (history later : List (vtable_func Ty)) (is0 is : List Nat)
    (st st1 : stateful_type_list.State (vtable_func Ty)) (funcs : List (vtable_func Ty))
    (this : Nat) (p : Printer Ty V W String) (F : Function) (stream : Nat)
    (args : List (Arg Ty V)) (pos Index : Nat) (w : W)
    (hsnap : stateful_type_list.registerAll history stateful_type_list.State.empty
      = some (is0, st))
    (hrun : stateful_type_list.registerAll (history ++ later) stateful_type_list.State.empty
      = some (is, st1))
    (hget : stateful_type_list.get st = some funcs)
    (hctor : ctor D this st = some p)
    (hmem : { F := F, Ts := args.map Arg.type } ∈ funcs)
    (hpos : (history ++ later)[pos]? = some { F := F, Ts := args.map Arg.type })
    (hi : is[pos]? = some Index) :
    Index < p.m_vtable.length ∧
    (F = Function.Print → ∀ call, D.print (args.map Arg.type) = some (MemFn.returns_void call) →
      print p Index args w = some (call this args w)) ∧
    (F = Function.PrintToStream →
      ∀ call, D.print_to_stream (args.map Arg.type) = some (MemFn.returns_void call) →
        print_to_stream p Index stream args w = some (call this (stream, args) w)) ∧
    (F = Function.PrintToString →
      ∀ call, D.print_to_string (args.map Arg.type) = some (MemFn.returns call) →
        (∃ inv, p.m_vtable[Index]? = some inv ∧
          inv p.this (args.map TupleElem.forwarded) (some none) w
            = some (some (some (call this args w).1), (call this args w).2)) ∧
        print_to_string p Index args w = some (call this args w)) := by
  obtain ⟨hthis, hlt, inv, hinv, hidx⟩ :=
    entry_of_registration hsnap hrun hget hctor hmem hpos hi
  refine ⟨hlt, ?_, ?_, ?_⟩
  · intro hF call hcall
    subst hF
    simp only [vtable_func.run, hcall] at hinv
    cases hinv
    simp only [print, hidx, vtable_func.run_impl, as_tuple_forwarded, hthis]
  · intro hF call hcall
    subst hF
    simp only [vtable_func.run, hcall] at hinv
    cases hinv
    simp only [print_to_stream, hidx, vtable_func.run_impl, as_tuple_with_ostream_forwarded,
      hthis]
  · intro hF call hcall
    subst hF
    simp only [vtable_func.run, hcall] at hinv
    cases hinv
    refine ⟨⟨_, hidx, ?_⟩, ?_⟩
    · simp only [vtable_func.run_impl, as_tuple_forwarded, hthis]
    · simp only [print_to_string, hidx, vtable_func.run_impl, as_tuple_forwarded, hthis]

/-- C10, as amended, at the call of `main`: `p->print_to_string(5, d, s)` through the object
`make_printer()` returns is in range and returns the three lines. -/
theorem dispatch_in_contract_witness :
    (0 < main_printer.m_vtable.length ∧
      (Function.PrintToString = Function.Print →
        ∀ call, (PrinterImpl main_fmt).print (main_args.map Arg.type)
            = some (MemFn.returns_void call) →
          print main_printer 0 main_args World.blank = some (call 0 main_args World.blank)) ∧
      (Function.PrintToString = Function.PrintToStream →
        ∀ call, (PrinterImpl main_fmt).print_to_stream (main_args.map Arg.type)
            = some (MemFn.returns_void call) →
          print_to_stream main_printer 0 1 main_args World.blank
            = some (call 0 (1, main_args) World.blank)) ∧
      (Function.PrintToString = Function.PrintToString →
        ∀ call, (PrinterImpl main_fmt).print_to_string (main_args.map Arg.type)
            = some (MemFn.returns call) →
          (∃ inv, main_printer.m_vtable[0]? = some inv ∧
            inv main_printer.this (main_args.map TupleElem.forwarded) (some none) World.blank
              = some (some (some (call 0 main_args World.blank).1),
                  (call 0 main_args World.blank).2)) ∧
          print_to_string main_printer 0 main_args World.blank
            = some (call 0 main_args World.blank))) ∧
    (print_to_string main_printer 0 main_args World.blank).map Prod.fst
      = some "5\n2.5\nHello, world!\n" :=
  ⟨dispatch_in_contract (PrinterImpl main_fmt) [main_func] [] [0] [0] main_registry main_registry
      [main_func] 0 main_printer Function.PrintToString 1 main_args 0 0 World.blank
      (by decide) (by decide) (by decide) rfl (by decide) (by decide) (by decide),
    by decide⟩

/-- C10 as stated fails: a class whose `print_to_string` returns `void` is in
contract for the call of `main` (its table was built from the registry that
holds the call, and index `0` is in range), yet the invoker returns with the
result slot still empty, and `print_to_string`, which reads `*ret`, is
undefined. -/
theorem dispatch_in_contract_counterexample :
    stateful_type_list.registerAll [main_func] stateful_type_list.State.empty
        = some ([0], main_registry) ∧
      stateful_type_list.get main_registry = some [main_func] ∧
      ctor (PrinterVoidToString main_fmt) 0 main_registry = some void_to_string_printer ∧
      0 < void_to_string_printer.m_vtable.length ∧
      (void_to_string_printer.m_vtable[0]?.bind fun inv =>
          (inv 0 (main_args.map TupleElem.forwarded) (some none) World.blank).map Prod.fst)
        = some (some none) ∧
      print_to_string void_to_string_printer 0 main_args World.blank = none :=
  ⟨by decide, by decide, rfl, by decide, by decide, rfl⟩

end Printer
end Part2

/-! ## The snapshot of the registry -/

namespace stateful_type_list

variable {α : Type} [DecidableEq α]

/-- The types a registry holds after a sequence of registrations are those it
held before and those that were registered. -/
theorem registerAll_members (Ts : List α) :
    ∀ (st : State α) (sigs : List α), Inv st sigs →
      ∃ is st1 sigs1, registerAll Ts st = some (is, st1) ∧ Inv st1 sigs1 ∧
        ∀ x, x ∈ sigs1 ↔ x ∈ sigs ∨ x ∈ Ts := by
  induction Ts with
  | nil =>
    intro st sigs h
    exact ⟨[], st, sigs, rfl, h, by intro x; simp⟩
  | cons T Ts ih =>
    intro st sigs h
    obtain ⟨i, st1, sigs1, e1, h1, _, hin, hout⟩ := try_push_spec h T
    obtain ⟨is, st2, sigs2, e2, h2, hmem⟩ := ih st1 sigs1 h1
    refine ⟨i :: is, st2, sigs2, by simp [registerAll, e1, e2], h2, ?_⟩
    intro x
    rw [hmem x]
    by_cases hT : T ∈ sigs
    · rw [(hin hT).2]
      constructor
      · rintro (hx | hx)
        · exact Or.inl hx
        · exact Or.inr (List.mem_cons_of_mem T hx)
      · rintro (hx | hx)
        · exact Or.inl hx
        · rcases List.mem_cons.1 hx with rfl | hx2
          · exact Or.inl hT
          · exact Or.inr hx2
    · rw [(hout hT).2]
      simp only [List.mem_append, List.mem_singleton, List.mem_cons]
      tauto

/-- C14. Registry snapshot consistency.  After any sequence `Ts` of
registrations the defined slots are exactly the indices below `n`, the length of
the snapshot `get` returns; slot `N` holds element `N` of the snapshot; the
snapshot holds every registered type, each once, and nothing else; and for every
registered type `s` the element of the snapshot at the index `try_push` returns
for `s`, during the sequence or afterwards, is `s`. -/
theorem get_returns_registered (Ts : List α) :
    ∃ is st sigs,
      registerAll Ts (State.empty : State α) = some (is, st) ∧ get st = some sigs ∧
      (∀ N, (flag st N).isSome ↔ N < sigs.length) ∧
      (∀ N, flag st N = sigs[N]?) ∧
      sigs.Nodup ∧ (∀ x, x ∈ sigs ↔ x ∈ Ts) ∧
      (∀ (p : Nat) (s : α) (i : Nat), Ts[p]? = some s → is[p]? = some i → sigs[i]? = some s) ∧
      (∀ s ∈ Ts, ∃ i, try_push s st = some (i, st) ∧ sigs[i]? = some s) := by
  obtain ⟨is, st, sigs, e, h, hmem⟩ := registerAll_members Ts (State.empty : State α) [] Inv.empty
  obtain ⟨is1, st1, sigs1, e1, h1, _, hidx⟩ := registerAll_empty_spec Ts
  rw [e] at e1
  cases e1
  have hs : sigs1 = sigs := by
    have a := get_of_inv h
    have b := get_of_inv h1
    rw [a] at b
    exact (Option.some.inj b).symm
  subst hs
  have hm : ∀ x, x ∈ sigs1 ↔ x ∈ Ts := by
    intro x
    rw [hmem x]
    simp
  refine ⟨is, st, sigs1, e, get_of_inv h, ?_, h.flag_eq, h.nodup, hm, hidx, ?_⟩
  · intro N
    rw [h.flag_eq N]
    by_cases hN : N < sigs1.length
    · simp [List.getElem?_eq_getElem hN, hN]
    · simp [List.getElem?_eq_none (Nat.le_of_not_lt hN), hN]
  · intro s hsT
    obtain ⟨k, hk⟩ := List.getElem?_of_mem ((hm s).2 hsT)
    exact ⟨k, try_push_hit h hk, hk⟩

end stateful_type_list

/-! ## The output of `PrinterImpl` -/

/-- The fold of the source appends the text of the specification to what the
stream held. -/
theorem insert_lines_eq_append {Ty V : Type} (fmt : Arg Ty V → String) (args : List (Arg Ty V)) :
    ∀ out : String, insert_lines fmt args out = out ++ rendered_lines fmt args := by
  induction args with
  | nil => intro out; simp [insert_lines, rendered_lines]
  | cons a rest ih =>
    intro out
    have h := ih (out ++ fmt a ++ "\n")
    simp only [insert_lines, List.foldl_cons] at h ⊢
    rw [h]
    simp only [rendered_lines, String.append_assoc]

namespace Part2

/-- C16. Output shape of `PrinterImpl`.  For every argument list, the three
members of `PrinterImpl` can be instantiated; `print_to_string` returns the
concatenation, in argument order, of each rendering followed by one newline (the
empty string for no argument) and leaves the world alone; `print` appends that
text to `std::cout` and `print_to_stream` appends it to the given stream, each
leaving every other stream alone.  For the arguments `(5, d, s)` of `main` the
text is `"5\n2.5\nHello, world!\n"`. -/
theorem PrinterImpl_output {Ty V : Type} (fmt : Arg Ty V → String) (Ts : List Ty) :
    (∃ callP callS callT,
      (PrinterImpl fmt).print Ts = some (MemFn.returns_void callP) ∧
      (PrinterImpl fmt).print_to_stream Ts = some (MemFn.returns_void callS) ∧
      (PrinterImpl fmt).print_to_string Ts = some (MemFn.returns callT) ∧
      ∀ (this stream : Nat) (args : List (Arg Ty V)) (w : World),
        callT this args w = (rendered_lines fmt args, w) ∧
        (callP this args w).cout = w.cout ++ rendered_lines fmt args ∧
        (callP this args w).ostreams = w.ostreams ∧
        (callS this (stream, args) w).ostreams stream
          = w.ostreams stream ++ rendered_lines fmt args ∧
        (∀ other, other ≠ stream →
          (callS this (stream, args) w).ostreams other = w.ostreams other) ∧
        (callS this (stream, args) w).cout = w.cout) ∧
    rendered_lines fmt [] = "" ∧
    rendered_lines main_fmt main_args = "5\n2.5\nHello, world!\n" ∧
    (Printer.print_to_string main_printer 0 main_args World.blank).map Prod.fst
      = some "5\n2.5\nHello, world!\n" := by
  refine ⟨⟨_, _, _, rfl, rfl, rfl, ?_⟩, rfl, by decide, by decide⟩
  intro this stream args w
  refine ⟨?_, ?_, rfl, ?_, ?_, rfl⟩
  · simp [insert_lines_eq_append]
  · simp [insert_lines_eq_append]
  · simp [insert_lines_eq_append]
  · intro other hne
    simp [hne]

end Part2

/-! ## Part 1 against part 2 -/

namespace stateful_type_list

end stateful_type_list

namespace Part2
namespace Printer

variable {Ty V W R : Type} [DecidableEq Ty]

/-- For a `print` that returns a value, the invoker of part 2 run with the null
result slot that `Printer::print` passes is undefined. -/
theorem print_invoker_undefined_of_value (Ts : List Ty)
    (call : Nat → List (Arg Ty V) → W → R × W) (this : Nat) (args : List (Arg Ty V)) (w : W) :
    vtable_func.run_impl (as_tuple Ts) (MemFn.returns call) this
      (args.map TupleElem.forwarded) none w = none := by
  simp only [vtable_func.run_impl]
  cases as_tuple Ts (args.map TupleElem.forwarded) <;> rfl

end Printer
end Part2

/-! ## Part 2: the table of an object -/

namespace Part2

variable {Ty V W : Type} [DecidableEq Ty]

/-- What a successful construction stored. -/
theorem ctor_some {D : Derived Ty V W String} {this : Nat}
    {st : stateful_type_list.State (Printer.vtable_func Ty)} {p : Printer Ty V W String}
    (h : Printer.ctor D this st = some p) :
    ∃ funcs vtable, stateful_type_list.get st = some funcs ∧
      Printer.create_vtable D funcs = some vtable ∧ p = { this := this, m_vtable := vtable } := by
  simp only [Printer.ctor] at h
  cases hg : stateful_type_list.get st with
  | none => rw [hg] at h; cases h
  | some funcs =>
    rw [hg] at h
    simp only [] at h
    cases hv : Printer.create_vtable D funcs with
    | none => rw [hv] at h; cases h
    | some vtable =>
      rw [hv] at h
      cases h
      exact ⟨funcs, vtable, rfl, hv, rfl⟩

/-- Objects constructed by one instantiated constructor hold the same table. -/
theorem ctor_same_table {D : Derived Ty V W String} {this1 this2 : Nat}
    {st : stateful_type_list.State (Printer.vtable_func Ty)} {p1 p2 : Printer Ty V W String}
    (h1 : Printer.ctor D this1 st = some p1) (h2 : Printer.ctor D this2 st = some p2) :
    p1.this = this1 ∧ p2.this = this2 ∧ p1.m_vtable = p2.m_vtable := by
  obtain ⟨funcs1, vtable1, g1, v1, rfl⟩ := ctor_some h1
  obtain ⟨funcs2, vtable2, g2, v2, rfl⟩ := ctor_some h2
  rw [g1] at g2
  cases g2
  rw [v1] at v2
  cases v2
  exact ⟨rfl, rfl, rfl⟩

/-- A step keeps every object and every instantiated constructor as it is; the
objects can only gain a new last element. -/
theorem exec_frame (classes : Nat → Derived Ty V W String) (step : Step Ty V)
    (prog prog1 : Program Ty V W) (h : Program.exec classes step prog = some prog1) :
    (∃ new, prog1.objects = prog.objects ++ new) ∧
      ∀ d st, instantiated_ctor prog.ctors d = some st →
        instantiated_ctor prog1.ctors d = some st := by
  cases step with
  | register f =>
    simp only [Program.exec] at h
    cases ht : stateful_type_list.try_push f prog.registry with
    | none => rw [ht] at h; cases h
    | some r =>
      rw [ht] at h
      cases h
      exact ⟨⟨[], by simp⟩, fun d st hd => hd⟩
  | construct e this =>
    simp only [Program.exec] at h
    cases hc : instantiated_ctor prog.ctors e with
    | some st0 =>
      rw [hc] at h
      simp only [] at h
      cases hp : Printer.ctor (classes e) this st0 with
      | none => rw [hp] at h; cases h
      | some p =>
        rw [hp] at h
        cases h
        exact ⟨⟨[p], rfl⟩, fun d st hd => hd⟩
    | none =>
      rw [hc] at h
      simp only [] at h
      cases hp : Printer.ctor (classes e) this prog.registry with
      | none => rw [hp] at h; cases h
      | some p =>
        rw [hp] at h
        cases h
        refine ⟨⟨[p], rfl⟩, ?_⟩
        intro d st hd
        simp only [instantiated_ctor]
        by_cases hed : e = d
        · subst hed
          rw [hc] at hd
          cases hd
        · rw [if_neg hed]
          exact hd
  | print k Index args =>
    simp only [Program.exec] at h
    cases ho : prog.objects[k]? with
    | none => rw [ho] at h; cases h
    | some p =>
      rw [ho] at h
      simp only [] at h
      cases hw : Printer.print p Index args prog.world with
      | none => rw [hw] at h; cases h
      | some w1 =>
        rw [hw] at h
        cases h
        exact ⟨⟨[], by simp⟩, fun d st hd => hd⟩
  | print_to_stream k Index stream args =>
    simp only [Program.exec] at h
    cases ho : prog.objects[k]? with
    | none => rw [ho] at h; cases h
    | some p =>
      rw [ho] at h
      simp only [] at h
      cases hw : Printer.print_to_stream p Index stream args prog.world with
      | none => rw [hw] at h; cases h
      | some w1 =>
        rw [hw] at h
        cases h
        exact ⟨⟨[], by simp⟩, fun d st hd => hd⟩
  | print_to_string k Index args =>
    simp only [Program.exec] at h
    cases ho : prog.objects[k]? with
    | none => rw [ho] at h; cases h
    | some p =>
      rw [ho] at h
      simp only [] at h
      cases hw : Printer.print_to_string p Index args prog.world with
      | none => rw [hw] at h; cases h
      | some r =>
        rw [hw] at h
        cases h
        exact ⟨⟨[], by simp⟩, fun d st hd => hd⟩

/-- A sequence of steps keeps every object and every instantiated constructor. -/
theorem run_frame (classes : Nat → Derived Ty V W String) (steps : List (Step Ty V)) :
    ∀ prog prog1 : Program Ty V W, Program.run classes steps prog = some prog1 →
      (∃ new, prog1.objects = prog.objects ++ new) ∧
        ∀ d st, instantiated_ctor prog.ctors d = some st →
          instantiated_ctor prog1.ctors d = some st := by
  induction steps with
  | nil =>
    intro prog prog1 h
    simp only [Program.run] at h
    cases h
    exact ⟨⟨[], by simp⟩, fun d st hd => hd⟩
  | cons step steps ih =>
    intro prog prog1 h
    simp only [Program.run] at h
    cases he : Program.exec classes step prog with
    | none => rw [he] at h; cases h
    | some prog0 =>
      rw [he] at h
      obtain ⟨⟨new0, hn0⟩, hc0⟩ := exec_frame classes step prog prog0 he
      obtain ⟨⟨new1, hn1⟩, hc1⟩ := ih prog0 prog1 h
      exact ⟨⟨new0 ++ new1, by rw [hn1, hn0, List.append_assoc]⟩,
        fun d st hd => hc1 d st (hc0 d st hd)⟩

/-- A run of `A ++ B` is a run of `A` followed by a run of `B`. -/
theorem run_append (classes : Nat → Derived Ty V W String) (A B : List (Step Ty V)) :
    ∀ prog prog2 : Program Ty V W, Program.run classes (A ++ B) prog = some prog2 →
      ∃ prog1, Program.run classes A prog = some prog1 ∧
        Program.run classes B prog1 = some prog2 := by
  induction A with
  | nil =>
    intro prog prog2 h
    exact ⟨prog, rfl, by simpa using h⟩
  | cons step A ih =>
    intro prog prog2 h
    simp only [List.cons_append, Program.run] at h ⊢
    cases he : Program.exec classes step prog with
    | none => rw [he] at h; cases h
    | some prog0 =>
      rw [he] at h
      exact ih prog0 prog2 h

/-- What a construction does: the constructor of the class is instantiated
afterwards, and the new last object was built by it. -/
theorem exec_construct (classes : Nat → Derived Ty V W String) (d this : Nat)
    (prog prog1 : Program Ty V W)
    (h : Program.exec classes (Step.construct d this) prog = some prog1) :
    ∃ st p, instantiated_ctor prog1.ctors d = some st ∧
      Printer.ctor (classes d) this st = some p ∧ prog1.objects = prog.objects ++ [p] ∧
      (∀ st0, instantiated_ctor prog.ctors d = some st0 → st0 = st) := by
  simp only [Program.exec] at h
  cases hc : instantiated_ctor prog.ctors d with
  | some st0 =>
    rw [hc] at h
    simp only [] at h
    cases hp : Printer.ctor (classes d) this st0 with
    | none => rw [hp] at h; cases h
    | some p =>
      rw [hp] at h
      cases h
      exact ⟨st0, p, hc, hp, rfl, fun st1 h1 => (Option.some.inj h1).symm⟩
  | none =>
    rw [hc] at h
    simp only [] at h
    cases hp : Printer.ctor (classes d) this prog.registry with
    | none => rw [hp] at h; cases h
    | some p =>
      rw [hp] at h
      cases h
      exact ⟨prog.registry, p, by simp [instantiated_ctor], hp, rfl,
        fun st1 h1 => by cases h1⟩

/-- C12. Table binding is fixed and keyed by type.  An object of the class
numbered `d` is constructed at `this1`; then any steps are taken (registrations,
constructions of objects of any class, calls of `print`, `print_to_stream` and
`print_to_string` on any object); then another object of class `d` is
constructed at `this2`.  Both objects hold the same table, and every object that
existed after the first construction, the first object among them, is the same
object, with the same table, after the steps and after the second
construction. -/
theorem table_binding_fixed (classes : Nat → Derived Ty V W String)
    (prog progC : Program Ty V W) (d this1 this2 : Nat) (steps : List (Step Ty V))
    (hrun : Program.run classes (Step.construct d this1 :: (steps ++ [Step.construct d this2]))
      prog = some progC) :
    ∃ progA progB p1 p2 between,
      Program.exec classes (Step.construct d this1) prog = some progA ∧
      progA.objects = prog.objects ++ [p1] ∧
      Program.run classes steps progA = some progB ∧
      progC.objects = prog.objects ++ [p1] ++ between ++ [p2] ∧
      p1.this = this1 ∧ p2.this = this2 ∧ p1.m_vtable = p2.m_vtable ∧
      ∀ (k : Nat) (p : Printer Ty V W String), progA.objects[k]? = some p →
        progB.objects[k]? = some p ∧ progC.objects[k]? = some p := by
  simp only [Program.run] at hrun
  cases hA : Program.exec classes (Step.construct d this1) prog with
  | none => rw [hA] at hrun; cases hrun
  | some progA =>
    rw [hA] at hrun
    simp only [] at hrun
    obtain ⟨progB, hB, hlast⟩ := run_append classes steps [Step.construct d this2] progA progC hrun
    simp only [Program.run] at hlast
    cases hC : Program.exec classes (Step.construct d this2) progB with
    | none => rw [hC] at hlast; cases hlast
    | some progC0 =>
      rw [hC] at hlast
      cases hlast
      obtain ⟨st, p1, hinst, hp1, hobjA, _⟩ := exec_construct classes d this1 prog progA hA
      obtain ⟨⟨between, hobjB⟩, hkeep⟩ := run_frame classes steps progA progB hB
      obtain ⟨st2, p2, _, hp2, hobjC, hsame⟩ := exec_construct classes d this2 progB progC hC
      have hst : st = st2 := hsame st (hkeep d st hinst)
      subst hst
      obtain ⟨t1, t2, tv⟩ := ctor_same_table hp1 hp2
      refine ⟨progA, progB, p1, p2, between, rfl, hobjA, hB, ?_, t1, t2, tv, ?_⟩
      · rw [hobjC, hobjB, hobjA]
      · intro k p hk
        have hkB : progB.objects[k]? = some p := by
          rw [hobjB]; exact stateful_type_list.getElem?_append_some between hk
        refine ⟨hkB, ?_⟩
        rw [hobjC]; exact stateful_type_list.getElem?_append_some [p2] hkB

/-- C12, at the program of `main`: a `PrinterImpl` constructed at `10`, a
registration and a call, a second `PrinterImpl` constructed at `20`.  Both
objects hold the table of one invoker although the registry has grown to
two signatures. -/
theorem table_binding_fixed_witness :
    (∃ progA progB p1 p2 between,
      Program.exec (fun _ => PrinterImpl main_fmt) (Step.construct 0 10) main_program
        = some progA ∧
      progA.objects = main_program.objects ++ [p1] ∧
      Program.run (fun _ => PrinterImpl main_fmt) steps_between progA = some progB ∧
      main_program_after.objects = main_program.objects ++ [p1] ++ between ++ [p2] ∧
      p1.this = 10 ∧ p2.this = 20 ∧ p1.m_vtable = p2.m_vtable ∧
      ∀ (k : Nat) (p : Printer CppType MainValue World String), progA.objects[k]? = some p →
        progB.objects[k]? = some p ∧ main_program_after.objects[k]? = some p) ∧
    main_program_after.objects.map (fun p => (p.this, p.m_vtable.length)) = [(10, 1), (20, 1)] ∧
    (stateful_type_list.get main_program_after.registry).map List.length = some 2 :=
  ⟨table_binding_fixed (fun _ => PrinterImpl main_fmt) main_program main_program_after 0 10 20
      steps_between rfl,
    by decide, by decide⟩

end Part2
